import Mathlib

/-
Verification of the systemd-userdb VARLINK client (package os/user):
a shallow embedding of the hand-rolled JSON codec
(userdbclientjson_linux.go), the call marshaller, the query dispatcher
and the record resolvers (userdbclient_linux.go), together with theorems
settling the frozen specification claims.

Go byte slices are modelled as lists of natural numbers below 256;
Go strings are byte lists as well.  Go runtime panics (out-of-range
slice indexing) are modelled by an explicit result constructor.
-/

namespace Userdb

/-- Go byte slices and Go strings: lists of byte values. -/
abbrev GoBytes := List Nat

/-- Bytes of an ASCII string literal. -/
def bytesOfAscii (s : String) : GoBytes := s.data.map Char.toNat

/-- isSpace from userdbclientjson_linux.go: space, tab, CR, LF. -/
def isSpace (c : Nat) : Bool := c == 32 || c == 9 || c == 13 || c == 10

/-- ASCII decimal digit test (strings.ContainsRune("0123456789", b)). -/
def isDigit (c : Nat) : Bool := decide (48 ≤ c ∧ c ≤ 57)

/-- Result of a Go parse function returning (value, rest, err).
`crash` models a Go runtime panic (out-of-range slice index). -/
inductive POut (α : Type) where
  | ok (v : α) (rest : GoBytes)
  | err (msg : String)
  | crash
deriving DecidableEq

/-- findElementStart: skip JSON spaces, require a single colon separator,
return the suffix of r at which the value starts.  The Go loop indexes
with `idx` and, when it scans to the end without breaking, returns
r[idx:] with idx equal to the last index; here the scan walks the
suffixes, and the exhaustion case (a singleton suffix consumed with the
colon already seen) accordingly returns that last one-byte suffix. -/
def findElementStart (r : GoBytes) : Except String GoBytes :=
  go r false
where
  go : GoBytes → Bool → Except String GoBytes
    | [], _ => .error "expected colon, got end of input"
    | [b], seenColon =>
      if isSpace b then
        if seenColon then .ok [b]
        else .error "expected colon, got end of input"
      else if ¬seenColon ∧ b = 58 then .ok [b]
      else if seenColon then .ok [b]
      else .error "expected colon, got invalid character"
    | b :: rest, seenColon =>
      if isSpace b then go rest seenColon
      else if ¬seenColon ∧ b = 58 then go rest true
      else if seenColon then .ok (b :: rest)
      else .error "expected colon, got invalid character"

/-! ### UTF-8 and UTF-16 primitives (unicode/utf8, unicode/utf16) -/

/-- utf16.IsSurrogate. -/
def isSurrogate (r : Nat) : Bool := decide (0xD800 ≤ r ∧ r < 0xE000)

/-- utf16.DecodeRune: combine a surrogate pair, RuneError (0xFFFD) when
the pair is not a valid high/low surrogate pair. -/
def utf16DecodeRune (r1 r2 : Nat) : Nat :=
  if 0xD800 ≤ r1 ∧ r1 < 0xDC00 ∧ 0xDC00 ≤ r2 ∧ r2 < 0xE000 then
    0x10000 + (r1 - 0xD800) * 0x400 + (r2 - 0xDC00)
  else 0xFFFD

/-- UTF-8 encoding of a valid Unicode scalar value. -/
def utf8Encode (c : Nat) : GoBytes :=
  if c < 0x80 then [c]
  else if c < 0x800 then
    [0xC0 + c / 0x40, 0x80 + c % 0x40]
  else if c < 0x10000 then
    [0xE0 + c / 0x1000, 0x80 + c / 0x40 % 0x40, 0x80 + c % 0x40]
  else
    [0xF0 + c / 0x40000, 0x80 + c / 0x1000 % 0x40, 0x80 + c / 0x40 % 0x40,
      0x80 + c % 0x40]

/-- utf8.EncodeRune / strings.Builder.WriteRune: surrogates and
out-of-range values encode as RuneError. -/
def utf8EncodeRune (c : Nat) : GoBytes :=
  if (0xD800 ≤ c ∧ c < 0xE000) ∨ 0x10FFFF < c then utf8Encode 0xFFFD
  else utf8Encode c

/-- Continuation byte test: 0x80 ≤ b < 0xC0. -/
def isCont (b : Nat) : Bool := decide (0x80 ≤ b ∧ b < 0xC0)

/-- bytes.Reader.ReadRune on a nonempty byte list: Go utf8.DecodeRune
semantics, returning (rune, size); invalid or incomplete sequences give
(RuneError, 1).  The empty list (handled by callers as EOF) gives size 0. -/
def utf8DecodeRune (l : GoBytes) : Nat × Nat :=
  match l with
  | [] => (0xFFFD, 0)
  | b0 :: rest =>
    if b0 < 0x80 then (b0, 1)
    else if b0 < 0xC2 then (0xFFFD, 1)
    else if b0 < 0xE0 then
      match rest with
      | b1 :: _ =>
        if isCont b1 then ((b0 - 0xC0) * 0x40 + (b1 - 0x80), 2) else (0xFFFD, 1)
      | [] => (0xFFFD, 1)
    else if b0 < 0xF0 then
      match rest with
      | b1 :: b2 :: _ =>
        let lo := if b0 = 0xE0 then 0xA0 else 0x80
        let hi := if b0 = 0xED then 0xA0 else 0xC0
        if lo ≤ b1 ∧ b1 < hi then
          if isCont b2 then
            ((b0 - 0xE0) * 0x1000 + (b1 - 0x80) * 0x40 + (b2 - 0x80), 3)
          else (0xFFFD, 1)
        else (0xFFFD, 1)
      | _ => (0xFFFD, 1)
    else if b0 < 0xF5 then
      match rest with
      | b1 :: b2 :: b3 :: _ =>
        let lo := if b0 = 0xF0 then 0x90 else 0x80
        let hi := if b0 = 0xF4 then 0x90 else 0xC0
        if lo ≤ b1 ∧ b1 < hi then
          if isCont b2 then
            if isCont b3 then
              ((b0 - 0xF0) * 0x40000 + (b1 - 0x80) * 0x1000 +
                (b2 - 0x80) * 0x40 + (b3 - 0x80), 4)
            else (0xFFFD, 1)
          else (0xFFFD, 1)
        else (0xFFFD, 1)
      | _ => (0xFFFD, 1)
    else (0xFFFD, 1)

/-- One hex digit (strconv.ParseUint base 16 digit). -/
def hexDigit (b : Nat) : Option Nat :=
  if 48 ≤ b ∧ b ≤ 57 then some (b - 48)
  else if 97 ≤ b ∧ b ≤ 102 then some (b - 87)
  else if 65 ≤ b ∧ b ≤ 70 then some (b - 55)
  else none

/-- strconv.ParseUint(string(h), 16, 32) on exactly four bytes. -/
def hexParse4 (l : GoBytes) : Option Nat :=
  match l with
  | [a, b, c, d] =>
    match hexDigit a, hexDigit b, hexDigit c, hexDigit d with
    | some x, some y, some z, some w => some (((x * 16 + y) * 16 + z) * 16 + w)
    | _, _, _, _ => none
  | _ => none

/-! ### parseJSONString

The Go function scans the buffer after the opening quote through a
bytes.Reader, building the value in a strings.Builder whose byte length
is tracked (`accLen`); the decoded bytes are accumulated in reverse
(`acc`).  On the closing quote it returns the remainder `r[reader.Len():]`
(dropping as many bytes from the front as remain unread), exactly as the
source does.  `rAll` is the buffer after the opening quote. -/

/-- Append encoded bytes to the reversed accumulator (Builder.Write). -/
def pushBytes (bs acc : GoBytes) : GoBytes := bs.reverse ++ acc

/-- One iteration of the parseJSONString scan loop: either a return
(`ret`) or the next loop state (`cont`). -/
inductive StepOut where
  | ret (o : POut GoBytes)
  | cont (acc : GoBytes) (accLen : Nat) (inEsc inUEsc : Bool) (rem : GoBytes)

/-- Body of the parseJSONString loop, after the size check. -/
def strLoopStep (rAll acc : GoBytes) (accLen : Nat) (inEsc inUEsc : Bool)
    (rem : GoBytes) : StepOut :=
  if inUEsc then
    -- reader.Read into a 4-byte buffer, then ParseUint(...,16,32)
    if rem.length < 4 then .ret (.err "invalid unicode escape sequence")
    else
      let rem1 := rem.drop 4
      match hexParse4 (rem.take 4) with
      | none => .ret (.err "invalid unicode escape sequence")
      | some rn =>
        if ¬ isSurrogate rn then
          let w := utf8EncodeRune rn
          .cont (pushBytes w acc) (accLen + w.length) false false rem1
        else
          -- read up to 6 lookahead bytes for a following low surrogate
          let s6 := rem1.take 6
          if s6.length = 6 ∧ s6.head? = some 92 ∧ (s6.drop 1).head? = some 117 then
            match hexParse4 (s6.drop 2) with
            | none => .ret (.err "invalid unicode escape sequence")
            | some rn1 =>
              let dec := utf16DecodeRune rn rn1
              if dec ≠ 0xFFFD then
                let w := utf8EncodeRune dec
                .cont (pushBytes w acc) (accLen + w.length) false false (rem1.drop 6)
              else
                -- invalid pair: nothing is written, both escapes consumed
                .cont acc accLen false false (rem1.drop 6)
          else
            -- not a \u escape: Seek back the bytes read, write U+FFFD
            let w := utf8EncodeRune 0xFFFD
            .cont (pushBytes w acc) (accLen + w.length) false false rem1
  else if inEsc then
    match rem with
    | [] => .ret (.err "EOF")
    | b :: rest =>
      if b = 98 then .cont (pushBytes [8] acc) (accLen + 1) false false rest
      else if b = 102 then .cont (pushBytes [12] acc) (accLen + 1) false false rest
      else if b = 110 then .cont (pushBytes [10] acc) (accLen + 1) false false rest
      else if b = 114 then .cont (pushBytes [13] acc) (accLen + 1) false false rest
      else if b = 116 then .cont (pushBytes [9] acc) (accLen + 1) false false rest
      else if b = 117 then .cont acc accLen false true rest
      else if b = 47 then .cont (pushBytes [47] acc) (accLen + 1) false false rest
      else if b = 92 then .cont (pushBytes [92] acc) (accLen + 1) false false rest
      else if b = 34 then .cont (pushBytes [34] acc) (accLen + 1) false false rest
      else .ret (.err "unexpected character in escape sequence")
  else
    match rem with
    | [] => .ret (.err "unexpected end of input")
    | _ :: _ =>
      let d := utf8DecodeRune rem
      let rest := rem.drop d.2
      if d.1 = 92 then .cont acc accLen true false rest
      else if d.1 = 34 then .ret (.ok acc.reverse (rAll.drop rest.length))
      else
        let w := utf8EncodeRune d.1
        .cont (pushBytes w acc) (accLen + w.length) false false rest

/-- The parseJSONString scan loop with the 4096-byte size cap. -/
def parseJSONStringLoop (rAll : GoBytes) :
    Nat → GoBytes → Nat → Bool → Bool → GoBytes → POut GoBytes
  | 0, _, _, _, _, _ => .err "out of fuel"
  | fuel + 1, acc, accLen, inEsc, inUEsc, rem =>
    if 4096 < accLen then .err "string too large"
    else
      match strLoopStep rAll acc accLen inEsc inUEsc rem with
      | .ret o => o
      | .cont a al e u rm => parseJSONStringLoop rAll fuel a al e u rm

/-- The same scan loop without the size cap (specification device used to
state what the decoded content of an input is). -/
def parseJSONStringLoopNoCap (rAll : GoBytes) :
    Nat → GoBytes → Nat → Bool → Bool → GoBytes → POut GoBytes
  | 0, _, _, _, _, _ => .err "out of fuel"
  | fuel + 1, acc, accLen, inEsc, inUEsc, rem =>
    match strLoopStep rAll acc accLen inEsc inUEsc rem with
    | .ret o => o
    | .cont a al e u rm => parseJSONStringLoopNoCap rAll fuel a al e u rm

/-- parseJSONString from userdbclientjson_linux.go. -/
def parseJSONString (r : GoBytes) : POut GoBytes :=
  match r.dropWhile isSpace with
  | [] => .err "unexpected end of input"
  | [_] => .err "unexpected end of input"
  | b0 :: b1 :: rest =>
    if b0 = 34 ∧ b1 = 34 then .ok [] rest
    else if b0 ≠ 34 then .err "expected quote"
    else
      let rAll := b1 :: rest
      parseJSONStringLoop rAll (rAll.length + 1) [] 0 false false rAll

/-- parseJSONString with the size cap removed (specification device). -/
def parseJSONStringNoCap (r : GoBytes) : POut GoBytes :=
  match r.dropWhile isSpace with
  | [] => .err "unexpected end of input"
  | [_] => .err "unexpected end of input"
  | b0 :: b1 :: rest =>
    if b0 = 34 ∧ b1 = 34 then .ok [] rest
    else if b0 ≠ 34 then .err "expected quote"
    else
      let rAll := b1 :: rest
      parseJSONStringLoopNoCap rAll (rAll.length + 1) [] 0 false false rAll

/-! ### parseJSONInt64 and parseJSONBoolean -/

/-- The digit-collecting loop of parseJSONInt64: errors (none) when the
builder already holds 20 digits and a further byte is processed. -/
def int64Loop : GoBytes → GoBytes → Option GoBytes
  | [], acc => some acc
  | b :: bs, acc =>
    if acc.length = 20 then none
    else if isDigit b then int64Loop bs (acc ++ [b])
    else some acc

/-- Numeric value of a run of ASCII digits. -/
def digitsVal (d : GoBytes) : Nat := d.foldl (fun a b => a * 10 + (b - 48)) 0

def maxInt64 : Nat := 9223372036854775807

/-- strconv.ParseInt(digits, 10, 64) on a digit-only string: empty input
and values beyond the int64 range are errors. -/
def goParseInt (d : GoBytes) : Except String Nat :=
  if d.isEmpty then .error "invalid syntax"
  else if maxInt64 < digitsVal d then .error "value out of range"
  else .ok (digitsVal d)

/-- parseJSONInt64 from userdbclientjson_linux.go. -/
def parseJSONInt64 (r : GoBytes) : POut Int :=
  let t := r.dropWhile isSpace
  match int64Loop t [] with
  | none => .err "number too large"
  | some d =>
    match goParseInt d with
    | .error m => .err m
    | .ok v => .ok (Int.ofNat v) (t.drop d.length)

/-- parseJSONBoolean from userdbclientjson_linux.go. -/
def parseJSONBoolean (r : GoBytes) : POut Bool :=
  let t := r.dropWhile isSpace
  if 4 ≤ t.length ∧ t.take 4 = bytesOfAscii "true" then .ok true (t.drop 4)
  else if 5 ≤ t.length ∧ t.take 5 = bytesOfAscii "false" then .ok false (t.drop 5)
  else .err "unable to parse boolean value"

/-! ### JSON values and objects

Decoded values are Go `any` values.  The parser only ever produces
`str`, `int64`, `bool`, `obj` (a `jsonObject`) and `arr` (an `[]any`);
`strArr` and `objArr` model the distinct Go dynamic types `[]string` and
`[]jsonObject`, which `jsonObjectGet` type assertions look for in
perMachineMatches.  A `jsonObject` (Go map) is modelled as an
association list with unique keys (insertion overwrites). -/

inductive GoVal where
  | str (s : GoBytes)
  | int64 (n : Int)
  | bool (b : Bool)
  | obj (fields : List (GoBytes × GoVal))
  | arr (elems : List GoVal)
  | strArr (xs : List GoBytes)
  | objArr (os : List (List (GoBytes × GoVal)))

abbrev JObj := List (GoBytes × GoVal)

def objLookup : JObj → GoBytes → Option GoVal
  | [], _ => none
  | (k, v) :: rest, key => if k = key then some v else objLookup rest key

/-- Go map assignment obj[key] = value. -/
def objInsert (o : JObj) (k : GoBytes) (v : GoVal) : JObj :=
  if (objLookup o k).isSome then o.map (fun p => if p.1 = k then (k, v) else p)
  else o ++ [(k, v)]

/-- jsonObjectGet[string]. -/
def getString (o : JObj) (k : GoBytes) : Option GoBytes :=
  match objLookup o k with
  | some (.str s) => some s
  | _ => none

/-- jsonObjectGet[int64]. -/
def getInt64 (o : JObj) (k : GoBytes) : Option Int :=
  match objLookup o k with
  | some (.int64 n) => some n
  | _ => none

/-- jsonObjectGet[bool]. -/
def getBool (o : JObj) (k : GoBytes) : Option Bool :=
  match objLookup o k with
  | some (.bool b) => some b
  | _ => none

/-- jsonObjectGet[jsonObject]. -/
def getObject (o : JObj) (k : GoBytes) : Option JObj :=
  match objLookup o k with
  | some (.obj f) => some f
  | _ => none

/-- jsonObjectGet with Go type []string: only a value whose dynamic type
is []string matches; a decoded JSON array (an []any) does not. -/
def getStringArr (o : JObj) (k : GoBytes) : Option (List GoBytes) :=
  match objLookup o k with
  | some (.strArr xs) => some xs
  | _ => none

/-- jsonObjectGet with Go type []jsonObject. -/
def getObjectArr (o : JObj) (k : GoBytes) : Option (List JObj) :=
  match objLookup o k with
  | some (.objArr os) => some os
  | _ => none

/-! ### parseJSONElement, parseJSONObject, parseJSONArray

These are mutually recursive in the source; here they take a fuel
argument, and the wrappers below supply fuel exceeding the deepest
possible chain of mutual calls (every object/array loop iteration and
every nested element strictly consumes input, so 3*length+8 suffices
for every input).  `crash` marks the Go runtime panic in
parseJSONElement, which indexes r[0] after the whitespace skip without
checking that the buffer is nonempty. -/

mutual

def parseJSONElementF : Nat → GoBytes → POut GoVal
  | 0, _ => .err "out of fuel"
  | fuel + 1, r =>
    let t := r.dropWhile isSpace
    match t with
    | [] => .crash
    | b :: _ =>
      if b = 123 then
        match parseJSONObjectF fuel t with
        | .ok o rest => .ok (.obj o) rest
        | .err m => .err m
        | .crash => .crash
      else if b = 91 then
        match parseJSONArrayF fuel t with
        | .ok a rest => .ok (.arr a) rest
        | .err m => .err m
        | .crash => .crash
      else if b = 34 then
        match parseJSONString t with
        | .ok s rest => .ok (.str s) rest
        | .err m => .err m
        | .crash => .crash
      else if b = 116 ∨ b = 102 then
        match parseJSONBoolean t with
        | .ok v rest => .ok (.bool v) rest
        | .err m => .err m
        | .crash => .crash
      else
        match parseJSONInt64 t with
        | .ok v rest => .ok (.int64 v) rest
        | .err m => .err m
        | .crash => .crash

def parseJSONObjectF : Nat → GoBytes → POut JObj
  | 0, _ => .err "out of fuel"
  | fuel + 1, r =>
    let t := r.dropWhile isSpace
    if t.length < 2 then .err "unexpected end of input"
    else
      match t with
      | [] => .err "unexpected end of input"
      | b :: rest =>
        if b ≠ 123 then .err "expected open brace"
        else parseJSONObjectLoopF fuel rest []

def parseJSONObjectLoopF : Nat → GoBytes → JObj → POut JObj
  | 0, _, _ => .err "out of fuel"
  | fuel + 1, r, o =>
    match r with
    | [] => .err "unexpected end of input"
    | b :: _ =>
      if b = 125 then .ok o r
      else
        match parseJSONString r with
        | .err m => .err m
        | .crash => .crash
        | .ok key rest =>
          match findElementStart rest with
          | .error m => .err m
          | .ok r2 =>
            match parseJSONElementF fuel r2 with
            | .err m => .err m
            | .crash => .crash
            | .ok v rest2 => parseJSONObjectLoopF fuel rest2 (objInsert o key v)

def parseJSONArrayF : Nat → GoBytes → POut (List GoVal)
  | 0, _ => .err "out of fuel"
  | fuel + 1, r =>
    let t := r.dropWhile isSpace
    if t.length < 2 then .err "unexpected end of input"
    else
      match t with
      | [] => .err "unexpected end of input"
      | b :: rest =>
        if b ≠ 91 then .err "expected open bracket"
        else parseJSONArrayLoopF fuel rest []

def parseJSONArrayLoopF : Nat → GoBytes → List GoVal → POut (List GoVal)
  | 0, _, _ => .err "out of fuel"
  | fuel + 1, r, es =>
    match r with
    | [] => .err "unexpected end of input"
    | b :: _ =>
      if b = 93 then .ok es r
      else
        match parseJSONElementF fuel r with
        | .err m => .err m
        | .crash => .crash
        | .ok v rest => parseJSONArrayLoopF fuel rest (es ++ [v])

end

def parseJSONElement (r : GoBytes) : POut GoVal :=
  parseJSONElementF (3 * r.length + 8) r

def parseJSONObject (r : GoBytes) : POut JObj :=
  parseJSONObjectF (3 * r.length + 8) r

def parseJSONArray (r : GoBytes) : POut (List GoVal) :=
  parseJSONArrayF (3 * r.length + 8) r

/-! ### Protocol constants (userdbclient_linux.go) -/

def userdbMuxSvc : GoBytes := bytesOfAscii "io.systemd.Multiplexer"
def mGetGroupRecord : GoBytes := bytesOfAscii "io.systemd.UserDatabase.GetGroupRecord"
def mGetUserRecord : GoBytes := bytesOfAscii "io.systemd.UserDatabase.GetUserRecord"
def mGetMemberships : GoBytes := bytesOfAscii "io.systemd.UserDatabase.GetMemberships"
def errNoRecordFound : GoBytes := bytesOfAscii "io.systemd.UserDatabase.NoRecordFound"
def errServiceNotAvailable : GoBytes :=
  bytesOfAscii "io.systemd.UserDatabase.ServiceNotAvailable"

def kError : GoBytes := bytesOfAscii "error"
def kContinues : GoBytes := bytesOfAscii "continues"
def kParameters : GoBytes := bytesOfAscii "parameters"
def kPerMachine : GoBytes := bytesOfAscii "perMachine"
def kMatchMachineId : GoBytes := bytesOfAscii "matchMachineId"
/-- The key the source actually looks up for the legacy single-string
machine-id form: note the spelling in the source is "marchMachineId". -/
def kMarchMachineId : GoBytes := bytesOfAscii "marchMachineId"
def kMatchHostname : GoBytes := bytesOfAscii "matchHostname"
def kBinding : GoBytes := bytesOfAscii "binding"
def kRecord : GoBytes := bytesOfAscii "record"
def kGroupName : GoBytes := bytesOfAscii "groupName"
def kGid : GoBytes := bytesOfAscii "gid"
def kUserName : GoBytes := bytesOfAscii "userName"
def kRealName : GoBytes := bytesOfAscii "realName"
def kUid : GoBytes := bytesOfAscii "uid"
def kHomeDirectory : GoBytes := bytesOfAscii "homeDirectory"

/-! ### Request marshalling -/

def natDigits (n : Nat) : GoBytes := (Nat.toDigits 10 n).map Char.toNat

/-- strconv.FormatInt(n, 10). -/
def formatInt (n : Int) : GoBytes :=
  if n < 0 then 45 :: natDigits n.natAbs else natDigits n.toNat

structure callParameters where
  uid : Option Int := none
  userName : GoBytes := []
  gid : Option Int := none
  groupName : GoBytes := []
deriving DecidableEq

/-- callParameters.marshalJSON: direct concatenation, names spliced in
verbatim with no escaping. -/
def callParameters.marshalJSON (c : callParameters) : GoBytes :=
  bytesOfAscii "\x7b\"service\":\"io.systemd.Multiplexer\"" ++
  (match c.uid with
   | some u => bytesOfAscii ",\"uid\":" ++ formatInt u
   | none => []) ++
  (if c.userName = [] then []
   else bytesOfAscii ",\"userName\":\"" ++ c.userName ++ [34]) ++
  (match c.gid with
   | some g => bytesOfAscii ",\"gid\":" ++ formatInt g
   | none => []) ++
  (if c.groupName = [] then []
   else bytesOfAscii ",\"groupName\":\"" ++ c.groupName ++ [34]) ++
  [125]

structure userdbCall where
  method : GoBytes
  parameters : callParameters
  more : Bool := false
deriving DecidableEq

/-- userdbCall.marshalJSON. -/
def userdbCall.marshalJSON (u : userdbCall) : GoBytes :=
  bytesOfAscii "\x7b\"method\":\"" ++ u.method ++ bytesOfAscii "\",\"parameters\":" ++
  u.parameters.marshalJSON ++
  (if u.more then bytesOfAscii ",\"more\":true" else []) ++ [125]

/-! ### Reply decoding and the query dispatcher -/

structure userdbReply where
  err : GoBytes := []
  continues : Bool := false
  parameters : JObj := []

def stringOfBytes (b : GoBytes) : String := ⟨b.map Char.ofNat⟩

inductive RepOut where
  | ok (rep : userdbReply)
  | err (m : String)
  | crash

/-- userdbReply.unmarshal. -/
def replyUnmarshal (data : GoBytes) : RepOut :=
  match parseJSONObject data with
  | .crash => .crash
  | .err m => .err m
  | .ok reply _ =>
    .ok { err := (getString reply kError).getD []
        , continues := (getBool reply kContinues).getD false
        , parameters := (getObject reply kParameters).getD [] }

/-- The read loop of query: chunks are appended until a chunk ends in a
NUL byte or a zero-byte read (EOF, modelled by an empty chunk or the
end of the chunk list) occurs. -/
def accumResp : List GoBytes → GoBytes
  | [] => []
  | c :: cs =>
    if c = [] then []
    else c ++ (if c.getLast? = some 0 then [] else accumResp cs)

/-- bytes.Split(buf, []byte{0}). -/
def splitOnNul (l : GoBytes) : List GoBytes :=
  go l []
where
  go : GoBytes → GoBytes → List GoBytes
    | [], cur => [cur.reverse]
    | b :: rest, cur =>
      if b = 0 then cur.reverse :: go rest [] else go rest (b :: cur)

inductive MsgsOut where
  | finished (ps : List JObj)
  | abort (handled : Bool) (e : Option String)
  | crashed

/-- The reply-processing loop inside query: skip NoRecordFound replies,
abort unhandled on ServiceNotAvailable, abort with the code on any other
error, accumulate parameters, stop once continues is false. -/
def queryProcessMsgs : List GoBytes → List JObj → MsgsOut
  | [], acc => .finished acc
  | m :: rest, acc =>
    match replyUnmarshal m with
    | .crash => .crashed
    | .err e => .abort true (some e)
    | .ok rep =>
      if rep.err = [] then
        if rep.continues then queryProcessMsgs rest (acc ++ [rep.parameters])
        else .finished (acc ++ [rep.parameters])
      else if rep.err = errNoRecordFound then queryProcessMsgs rest acc
      else if rep.err = errServiceNotAvailable then .abort false none
      else .abort true (some (stringOfBytes rep.err))

/-- Outcome of the transport for one round trip: socket creation or
connect failure, a context (deadline) error or I/O error during the
write or read loop, or the successfully read response chunks. -/
inductive NetOutcome where
  | sockErr (m : String)
  | connectNotExist (m : String)
  | connectFailed (m : String)
  | writeCtxErr (m : String)
  | writeFailed (m : String)
  | readCtxErr (m : String)
  | readFailed (m : String)
  | responded (chunks : List GoBytes)

inductive QOut (σ : Type) where
  | res (handled : Bool) (e : Option String) (st : σ)
  | crash

/-- query from userdbclient_linux.go, as a function of the transport
outcome: socket and connect-on-missing-path failures return handled
false with the error; every other transport failure returns handled
true with the error; an empty response is handled true with no error;
otherwise the NUL-separated messages are processed and the accumulated
parameters handed to the decoder. -/
def queryModel {σ : Type} (net : NetOutcome) (s₀ : σ)
    (unm : σ → List JObj → Except String σ) : QOut σ :=
  match net with
  | .sockErr m => .res false (some m) s₀
  | .connectNotExist m => .res false (some m) s₀
  | .connectFailed m => .res true (some m) s₀
  | .writeCtxErr m => .res true (some m) s₀
  | .writeFailed m => .res true (some m) s₀
  | .readCtxErr m => .res true (some m) s₀
  | .readFailed m => .res true (some m) s₀
  | .responded chunks =>
    let resp := accumResp chunks
    if resp = [] then .res true none s₀
    else
      match queryProcessMsgs (splitOnNul resp.dropLast) [] with
      | .crashed => .crash
      | .abort h e => .res h e s₀
      | .finished ps =>
        match unm s₀ ps with
        | .error e => .res true (some e) s₀
        | .ok s₁ => .res true none s₁

/-! ### Records and field resolution -/

structure perMachineRecord where
  machineId : GoBytes := []
  hostname : GoBytes := []
deriving DecidableEq

/-- The match test of one perMachine entry inside perMachineMatches:
array-typed matchMachineId, the legacy single-string form (looked up
under the source key "marchMachineId"), array-typed matchHostname, and
the legacy single-string matchHostname. -/
def perMachineEntryMatches (p : perMachineRecord) (per : JObj) : Bool :=
  (match getStringArr per kMatchMachineId with
   | some mids => mids.any (· == p.machineId)
   | none => false) ||
  (match getString per kMarchMachineId with
   | some mid => mid == p.machineId
   | none => false) ||
  (match getStringArr per kMatchHostname with
   | some mhs => mhs.any (· == p.hostname)
   | none => false) ||
  (match getString per kMatchHostname with
   | some mh => mh == p.hostname
   | none => false)

/-- perMachineMatches from userdbclient_linux.go. -/
def perMachineMatches (p : perMachineRecord) (obj : JObj) : List JObj :=
  match getObjectArr obj kPerMachine with
  | some perMachine => perMachine.filter (perMachineEntryMatches p)
  | none => []

/-- machineBoundRecord from userdbclient_linux.go. -/
def machineBoundRecord (machineID : GoBytes) (obj : JObj) : Option JObj :=
  match getObject obj kBinding with
  | some binding => getObject binding machineID
  | none => none

structure groupRecord where
  pm : perMachineRecord := {}
  groupName : GoBytes := []
  gid : Int := 0

/-- groupRecord.unmarshalParameters: exactly one parameters object, a
record field with a mandatory groupName; the gid starts from the base
record, is overwritten by each matching perMachine entry in order, and
finally by the machine-bound binding entry when it defines a gid. -/
def groupRecord.unmarshalParameters (g : groupRecord) (params : List JObj) :
    Except String groupRecord :=
  match params with
  | [p] =>
    match getObject p kRecord with
    | none => .error "missing or invalid record in userdb reply"
    | some record =>
      match getString record kGroupName with
      | none => .error "missing or invalid groupName in userdb reply"
      | some groupName =>
        let g := { g with groupName := groupName }
        let g := match getInt64 record kGid with
                 | some gid => { g with gid := gid }
                 | none => g
        let g := (perMachineMatches g.pm record).foldl
                   (fun g m =>
                     match getInt64 m kGid with
                     | some gid => { g with gid := gid }
                     | none => g) g
        let g := match machineBoundRecord g.pm.machineId record with
                 | some rec =>
                   match getInt64 rec kGid with
                   | some gid => { g with gid := gid }
                   | none => g
                 | none => g
        .ok g
  | _ => .error "unexpected userdb reply"

structure userRecord where
  pm : perMachineRecord := {}
  userName : GoBytes := []
  realName : GoBytes := []
  uid : Int := 0
  gid : Int := 0
  homeDirectory : GoBytes := []

/-- The four optional field overwrites shared by the base record, each
matching perMachine entry and the binding entry in
userRecord.unmarshalParameters. -/
def applyUserFields (u : userRecord) (m : JObj) : userRecord :=
  let u := match getString m kRealName with
           | some v => { u with realName := v }
           | none => u
  let u := match getInt64 m kUid with
           | some v => { u with uid := v }
           | none => u
  let u := match getInt64 m kGid with
           | some v => { u with gid := v }
           | none => u
  match getString m kHomeDirectory with
  | some v => { u with homeDirectory := v }
  | none => u

/-- userRecord.unmarshalParameters. -/
def userRecord.unmarshalParameters (u : userRecord) (params : List JObj) :
    Except String userRecord :=
  match params with
  | [p] =>
    match getObject p kRecord with
    | none => .error "missing or invalid record in userdb reply"
    | some record =>
      match getString record kUserName with
      | none => .error "missing or invalid userName in userdb reply"
      | some userName =>
        let u := { u with userName := userName }
        let u := applyUserFields u record
        let u := (perMachineMatches u.pm record).foldl applyUserFields u
        let u := match machineBoundRecord u.pm.machineId record with
                 | some rec => applyUserFields u rec
                 | none => u
        .ok u
  | _ => .error "unexpected userdb reply"

/-! ### Membership aggregation -/

structure memberships where
  groupUsers : List (GoBytes × List GoBytes) := []

/-- Insertion into a Go set (map to struct{}). -/
def setInsert (s : List GoBytes) (u : GoBytes) : List GoBytes :=
  if s.any (· == u) then s else s ++ [u]

/-- m.groupUsers[groupName] gains userName. -/
def groupUsersInsert (m : List (GoBytes × List GoBytes)) (g u : GoBytes) :
    List (GoBytes × List GoBytes) :=
  if m.any (·.1 == g) then
    m.map (fun e => if e.1 = g then (e.1, setInsert e.2 u) else e)
  else m ++ [(g, [u])]

/-- memberships.unmarshalParameters: every parameters object must define
both userName and groupName; the pairs are accumulated into the
groupName-to-userNames map. -/
def memberships.unmarshalParameters (_m : memberships) (params : List JObj) :
    Except String memberships :=
  go params []
where
  go : List JObj → List (GoBytes × List GoBytes) → Except String memberships
    | [], acc => .ok ⟨acc⟩
    | p :: ps, acc =>
      match getString p kUserName with
      | none => .error "missing or invalid userName in userdb reply"
      | some userName =>
        match getString p kGroupName with
        | none => .error "missing or invalid groupName in userdb reply"
        | some groupName => go ps (groupUsersInsert acc groupName userName)

/-! ### Query operations -/

structure Group where
  Name : GoBytes
  Gid : GoBytes
deriving DecidableEq

structure User where
  Uid : GoBytes
  Gid : GoBytes
  Username : GoBytes
  Name : GoBytes
  HomeDir : GoBytes
deriving DecidableEq

inductive LookupOut (α : Type) where
  | res (v : Option α) (handled : Bool) (e : Option String)
  | crashed

/-- fmt %s of a Go error value that may be nil. -/
def errStr : Option String → String
  | some m => m
  | none => "%!s(<nil>)"

def groupRequest (gid : Option Int) (groupname : GoBytes) : GoBytes :=
  userdbCall.marshalJSON
    { method := mGetGroupRecord, parameters := { gid := gid, groupName := groupname } }

def userRequest (uid : Option Int) (username : GoBytes) : GoBytes :=
  userdbCall.marshalJSON
    { method := mGetUserRecord, parameters := { uid := uid, userName := username } }

def membershipsRequest (username : GoBytes) : GoBytes :=
  userdbCall.marshalJSON
    { method := mGetMemberships, parameters := { userName := username }, more := true }

/-- queryGroupDb: note the source starts from groupRecord\x7b\x7d, whose
embedded perMachineRecord is the zero value (empty machine id and
hostname) - the client machine identity is not propagated.  An oracle
maps each marshalled request to its transport outcome. -/
def queryGroupDb (oracle : GoBytes → NetOutcome) (gid : Option Int)
    (groupname : GoBytes) : LookupOut Group :=
  match queryModel (oracle (groupRequest gid groupname)) ({} : groupRecord)
      groupRecord.unmarshalParameters with
  | .crash => .crashed
  | .res ok e g =>
    if ok = false ∨ e.isSome then
      .res none ok (some ("error querying systemd-userdb group record: " ++ errStr e))
    else .res (some { Name := g.groupName, Gid := formatInt g.gid }) true none

/-- queryUserDb, analogous. -/
def queryUserDb (oracle : GoBytes → NetOutcome) (uid : Option Int)
    (username : GoBytes) : LookupOut User :=
  match queryModel (oracle (userRequest uid username)) ({} : userRecord)
      userRecord.unmarshalParameters with
  | .crash => .crashed
  | .res ok e u =>
    if ok = false ∨ e.isSome then
      .res none ok (some ("error querying systemd-userdb user record: " ++ errStr e))
    else
      .res (some { Uid := formatInt u.uid, Gid := formatInt u.gid,
                   Username := u.userName, Name := u.realName,
                   HomeDir := u.homeDirectory }) true none

def lookupGroup (oracle : GoBytes → NetOutcome) (groupname : GoBytes) :
    LookupOut Group :=
  queryGroupDb oracle none groupname

def lookupUser (oracle : GoBytes → NetOutcome) (username : GoBytes) :
    LookupOut User :=
  queryUserDb oracle none username

/-- The per-group lookup loop at the end of lookupGroupIds. -/
def lookupGroupIdsLoop (oracle : GoBytes → NetOutcome) :
    List (GoBytes × List GoBytes) → List GoBytes → LookupOut (List GoBytes)
  | [], gids => .res (some gids) true none
  | (gname, _) :: rest, gids =>
    match queryModel (oracle (groupRequest none gname)) ({} : groupRecord)
        groupRecord.unmarshalParameters with
    | .crash => .crashed
    | .res ok e g =>
      if ok = false ∨ e.isSome then
        .res none ok (some ("error querying systemd-userdb group record: " ++ errStr e))
      else lookupGroupIdsLoop oracle rest (gids ++ [formatInt g.gid])

/-- lookupGroupIds: fetch the membership stream, then the group record
of the group named after the user, then one group record per distinct
observed group name, collecting the gids as decimal strings. -/
def lookupGroupIds (oracle : GoBytes → NetOutcome) (username : GoBytes) :
    LookupOut (List GoBytes) :=
  match queryModel (oracle (membershipsRequest username)) ({} : memberships)
      memberships.unmarshalParameters with
  | .crash => .crashed
  | .res ok e ms =>
    if ok = false ∨ e.isSome then
      .res none ok
        (some ("error querying systemd-userdb memberships record: " ++ errStr e))
    else
      match queryModel (oracle (groupRequest none username)) ({} : groupRecord)
          groupRecord.unmarshalParameters with
      | .crash => .crashed
      | .res ok2 e2 g =>
        if ok2 = false ∨ e2.isSome then .res none ok2 e2
        else lookupGroupIdsLoop oracle ms.groupUsers [formatInt g.gid]

/-! ### Fixtures and helper definitions used by the claim theorems -/

/-- The group-record reply fixture from TestUserdbLookupGroup. -/
def fixtureGroupMsg : GoBytes :=
  bytesOfAscii "\x7b\"parameters\":\x7b\"record\":\x7b\"groupName\":\"stdlibcontrib\",\"gid\":181,\"members\":[\"stdlibcontrib\"],\"status\":\x7b\"ecb5a44f1a5846ad871566e113bf8937\":\x7b\"service\":\"io.systemd.NameServiceSwitch\"\x7d\x7d\x7d,\"incomplete\":false\x7d\x7d"

/-- A reply message carrying the ServiceNotAvailable error code. -/
def snaReplyMsg : GoBytes :=
  bytesOfAscii "\x7b\"error\":\"io.systemd.UserDatabase.ServiceNotAvailable\"\x7d"

/-- A concrete machine identity used in the perMachine fixtures. -/
def pmFix : perMachineRecord :=
  { machineId := bytesOfAscii "mid1", hostname := bytesOfAscii "hostX" }

/-- A perMachine entry in the legacy single-string matchMachineId form
(under the correctly spelled key), defining a gid override. -/
def entryLegacyMid : JObj :=
  [(kMatchMachineId, GoVal.str (bytesOfAscii "mid1")), (kGid, GoVal.int64 999)]

/-- The same entry but keyed by the misspelled key the source looks up. -/
def entryMarchMid : JObj :=
  [(kMarchMachineId, GoVal.str (bytesOfAscii "mid1")), (kGid, GoVal.int64 999)]

/-- A record whose perMachine array holds the legacy-form entry. -/
def recLegacyMid : JObj :=
  [(kGroupName, GoVal.str (bytesOfAscii "g")), (kGid, GoVal.int64 5),
   (kPerMachine, GoVal.objArr [entryLegacyMid])]

/-- A record whose perMachine array holds the misspelled-key entry. -/
def recMarchMid : JObj :=
  [(kGroupName, GoVal.str (bytesOfAscii "g")), (kGid, GoVal.int64 5),
   (kPerMachine, GoVal.objArr [entryMarchMid])]

/-- Last value for an int64 field among a list of objects (the net
effect of sequential overwrites in array order: later matches win). -/
def lastDefinedInt (k : GoBytes) : List JObj → Option Int
  | [] => none
  | m :: ms =>
    match lastDefinedInt k ms with
    | some v => some v
    | none => getInt64 m k

/-- Last value for a string field among a list of objects. -/
def lastDefinedStr (k : GoBytes) : List JObj → Option GoBytes
  | [] => none
  | m :: ms =>
    match lastDefinedStr k ms with
    | some v => some v
    | none => getString m k

/-- Distinct elements of a list, keeping first occurrences. -/
def distinctFirst (l : List GoBytes) : List GoBytes :=
  l.foldl (fun ks g => if ks.any (· == g) then ks else ks ++ [g]) []

/-- Reference decoder for a JSON string literal, written from the JSON
meaning of a string member rather than from the source: an opening
quote, then raw bytes and the simple backslash escapes, up to the
closing quote, returning the decoded content and the remaining bytes.
Unicode escapes are not needed by the serializer comparison and are
rejected.  Used only to compare the splicing serializer against the
codec-invertibility wording of the claim. -/
def jsonStringLitRef (l : GoBytes) : Option (GoBytes × GoBytes) :=
  match l with
  | b :: rest => if b = 34 then go rest [] else none
  | [] => none
where
  go : GoBytes → GoBytes → Option (GoBytes × GoBytes)
    | [], _ => none
    | b :: rest, acc =>
      if b = 34 then some (acc.reverse, rest)
      else if b = 92 then
        match rest with
        | [] => none
        | e :: rest2 =>
          if e = 98 then go rest2 (8 :: acc)
          else if e = 102 then go rest2 (12 :: acc)
          else if e = 110 then go rest2 (10 :: acc)
          else if e = 114 then go rest2 (13 :: acc)
          else if e = 116 then go rest2 (9 :: acc)
          else if e = 47 then go rest2 (47 :: acc)
          else if e = 92 then go rest2 (92 :: acc)
          else if e = 34 then go rest2 (34 :: acc)
          else none
      else go rest (b :: acc)

/-- A byte list containing none of double quote, backslash, NUL. -/
abbrev cleanName (s : GoBytes) : Prop := ∀ b ∈ s, b ≠ 34 ∧ b ≠ 92 ∧ b ≠ 0

/-- The binding-entry value of an int64 field for this machine id. -/
def bindingInt (pm : perMachineRecord) (rec : JObj) (k : GoBytes) : Option Int :=
  match machineBoundRecord pm.machineId rec with
  | some b => getInt64 b k
  | none => none

/-- The binding-entry value of a string field for this machine id. -/
def bindingStr (pm : perMachineRecord) (rec : JObj) (k : GoBytes) : Option GoBytes :=
  match machineBoundRecord pm.machineId rec with
  | some b => getString b k
  | none => none

/-- The three-tier precedence chain for an int64 field: the binding
entry wins, else the last matching perMachine entry, else the base
record, else the default. -/
def resolveInt (pm : perMachineRecord) (rec : JObj) (k : GoBytes) (dflt : Int) : Int :=
  match bindingInt pm rec k with
  | some v => v
  | none =>
    match lastDefinedInt k (perMachineMatches pm rec) with
    | some v => v
    | none => (getInt64 rec k).getD dflt

/-- The three-tier precedence chain for a string field. -/
def resolveStr (pm : perMachineRecord) (rec : JObj) (k : GoBytes) (dflt : GoBytes) :
    GoBytes :=
  match bindingStr pm rec k with
  | some v => v
  | none =>
    match lastDefinedStr k (perMachineMatches pm rec) with
    | some v => v
    | none => (getString rec k).getD dflt

/-- A record exercising all three resolution tiers: base values, one
perMachine entry matching via the legacy single-string hostname, and a
binding entry for machine id "mid1". -/
def c5Rec : JObj :=
  [(kGroupName, GoVal.str (bytesOfAscii "g")),
   (kUserName, GoVal.str (bytesOfAscii "u")),
   (kGid, GoVal.int64 1),
   (kUid, GoVal.int64 10),
   (kRealName, GoVal.str (bytesOfAscii "base")),
   (kPerMachine, GoVal.objArr
     [[(kMatchHostname, GoVal.str (bytesOfAscii "hostX")),
       (kGid, GoVal.int64 2), (kRealName, GoVal.str (bytesOfAscii "pm"))]]),
   (kBinding, GoVal.obj
     [(bytesOfAscii "mid1", GoVal.obj [(kGid, GoVal.int64 3)])])]

/-- Invariant of one scan-loop step: a returned value is the
reversed accumulator, and a continuation only extends the accumulator
while tracking its length. -/
def stepInv (acc : GoBytes) (accLen : Nat) : StepOut → Prop
  | .ret o => ∀ s rest, o = .ok s rest → s = acc.reverse
  | .cont a al _ _ _ => ∃ w, a = w ++ acc ∧ al = accLen + w.length


/-! ## Claim theorems -/

set_option maxRecDepth 100000 in
/-- Claim C1: the claim states that looking up group "stdlibcontrib"
against the single NUL-terminated fixture reply returns handled true,
no error, and the record Name "stdlibcontrib", Gid "181", with
parseJSONObject parsing the reply.  The code diverges: parseJSONString
returns the remainder r[reader.Len():] (dropping the unread count from
the front instead of the consumed count), so parseJSONObject fails on
the multi-key fixture object at the colon check, and the lookup
returns handled true with a parse error and no record.  This theorem
evaluates the code on the claimed input. -/
theorem c1_fixture_group_lookup_fails :
    lookupGroup (fun _ => .responded [fixtureGroupMsg ++ [0]])
        (bytesOfAscii "stdlibcontrib")
      = .res none true
          (some "error querying systemd-userdb group record: expected colon, got invalid character")
    ∧ parseJSONObject fixtureGroupMsg = .err "expected colon, got invalid character" :=
  ⟨rfl, rfl⟩

/-- Claim C2: the claim states that every parse function returns a value
or an error and never reads past the buffer, in particular that
parseJSONElement on an empty or all-whitespace buffer (as reached from
parseJSONArray on input "[ ") returns an error.  The code diverges:
after the whitespace skip, parseJSONElement switches on r[0] without a
bounds check, which is an out-of-range index (runtime panic) on those
inputs.  This theorem evaluates the code on the claimed inputs. -/
theorem c2_parse_element_empty_buffer_panics :
    parseJSONElement [] = .crash
    ∧ parseJSONElement (bytesOfAscii " ") = .crash
    ∧ parseJSONArray (bytesOfAscii "[ ") = .crash :=
  ⟨rfl, rfl, rfl⟩

set_option maxRecDepth 100000 in
/-- Claim C3: the claim (and the doc comment on query in the source)
states that a reply carrying the ServiceNotAvailable error code
downgrades the call to handled false with no error.  The code diverges:
that reply message never parses (the parseJSONString remainder bug makes
parseJSONObject fail on it), so query returns handled true with a parse
error and the downgrade path is unreachable for the protocol reply.
This theorem evaluates the code on a NUL-terminated ServiceNotAvailable
reply stream. -/
theorem c3_sna_reply_not_downgraded :
    queryModel (.responded [snaReplyMsg ++ [0]]) ({} : groupRecord)
        groupRecord.unmarshalParameters
      = .res true (some "expected colon, got invalid character") {}
    ∧ replyUnmarshal snaReplyMsg = .err "expected colon, got invalid character" :=
  ⟨rfl, rfl⟩

/-- Claim C4: the claim states that a perMachine entry carrying a legacy
single-string matchMachineId equal to the machine id matches and has
its field values applied.  The code diverges: the legacy form is looked
up under the misspelled key "marchMachineId", so an entry with a
single-string "matchMachineId" never matches (first conjunct), while
the same entry under the misspelled key does (second conjunct), and,
during resolution, the gid override of the legacy-form entry is not
applied (third conjunct). -/
theorem c4_legacy_machine_id_key_misspelled :
    perMachineMatches pmFix recLegacyMid = []
    ∧ perMachineMatches pmFix recMarchMid = [entryMarchMid]
    ∧ groupRecord.unmarshalParameters { pm := pmFix }
        [[(kRecord, GoVal.obj recLegacyMid)]]
        = .ok { pm := pmFix, groupName := bytesOfAscii "g", gid := 5 } :=
  ⟨rfl, rfl, rfl⟩

/-- Characterization of the digit-collecting loop of parseJSONInt64:
it errors exactly when the first 20 bytes are digits and a 21st byte
exists (relative to the digits already collected), and otherwise
collects the leading digit run. -/
theorem int64Loop_spec : ∀ (t acc : GoBytes), acc.length ≤ 20 →
    int64Loop t acc =
      if 20 - acc.length ≤ (t.takeWhile isDigit).length ∧ 21 - acc.length ≤ t.length
      then none
      else some (acc ++ t.takeWhile isDigit) := by
  intro t
  induction t with
  | nil =>
    intro acc h
    rw [int64Loop]
    simp only [List.takeWhile_nil, List.length_nil, List.append_nil]
    rw [if_neg (by omega)]
  | cons b bs ih =>
    intro acc h
    by_cases hacc : acc.length = 20
    · rw [int64Loop, if_pos hacc,
        if_pos (by simp only [List.length_cons]; omega)]
    · by_cases hdg : isDigit b = true
      · rw [int64Loop, if_neg hacc, if_pos hdg,
          ih (acc ++ [b]) (by simp only [List.length_append, List.length_cons,
            List.length_nil]; omega)]
        rw [List.takeWhile_cons, if_pos hdg]
        by_cases hc : 20 - (acc ++ [b]).length ≤ (bs.takeWhile isDigit).length ∧
            21 - (acc ++ [b]).length ≤ bs.length
        · rw [if_pos hc, if_pos (by simp only [List.length_append,
            List.length_cons, List.length_nil] at hc ⊢; omega)]
        · rw [if_neg hc, if_neg (by simp only [List.length_append,
            List.length_cons, List.length_nil] at hc ⊢; omega)]
          simp
      · rw [int64Loop, if_neg hacc, if_neg hdg, List.takeWhile_cons, if_neg hdg]
        rw [if_neg (by simp only [List.length_nil, List.length_cons]; omega)]
        simp

/-- Unfolding equation for parseJSONInt64. -/
theorem parseJSONInt64_eq (r : GoBytes) :
    parseJSONInt64 r =
      match int64Loop (r.dropWhile isSpace) [] with
      | none => .err "number too large"
      | some d =>
        match goParseInt d with
        | .error m => .err m
        | .ok v => .ok (Int.ofNat v) ((r.dropWhile isSpace).drop d.length) := rfl

theorem parseJSONInt64_of_loop_none (r : GoBytes)
    (h : int64Loop (r.dropWhile isSpace) [] = none) :
    parseJSONInt64 r = .err "number too large" := by
  rw [parseJSONInt64_eq, h]

theorem parseJSONInt64_of_loop_some (r d : GoBytes)
    (h : int64Loop (r.dropWhile isSpace) [] = some d) :
    parseJSONInt64 r =
      match goParseInt d with
      | .error m => .err m
      | .ok v => .ok (Int.ofNat v) ((r.dropWhile isSpace).drop d.length) := by
  rw [parseJSONInt64_eq, h]

/-- Claim C7, amended.  The claim as frozen states that every leading
digit run of length 20 or more is rejected and every run of length at
most 19 parses to its decimal value with the suffix returned verbatim.
As amended by the counterexamples: the "number too large" rejection
happens exactly when the first 20 bytes after the whitespace are digits
and at least one further byte follows them in the buffer; otherwise the
collected run (which may then have length 20 at the end of the buffer)
parses to its decimal value when it is nonempty and fits in int64, with
the unconsumed suffix returned verbatim, and errors on an empty run or
a value beyond the int64 range. -/
theorem c7_int64_characterization (r t d : GoBytes)
    (ht : t = r.dropWhile isSpace) (hd : d = t.takeWhile isDigit) :
    (20 ≤ d.length ∧ 21 ≤ t.length → parseJSONInt64 r = .err "number too large")
    ∧ (¬(20 ≤ d.length ∧ 21 ≤ t.length) → d ≠ [] → digitsVal d ≤ maxInt64 →
        parseJSONInt64 r = .ok (Int.ofNat (digitsVal d)) (t.drop d.length))
    ∧ (¬(20 ≤ d.length ∧ 21 ≤ t.length) → d = [] →
        parseJSONInt64 r = .err "invalid syntax")
    ∧ (¬(20 ≤ d.length ∧ 21 ≤ t.length) → maxInt64 < digitsVal d →
        parseJSONInt64 r = .err "value out of range") := by
  subst ht
  subst hd
  have hloop : int64Loop (r.dropWhile isSpace) [] =
      if 20 ≤ ((r.dropWhile isSpace).takeWhile isDigit).length ∧
          21 ≤ (r.dropWhile isSpace).length
      then none
      else some ((r.dropWhile isSpace).takeWhile isDigit) := by
    rw [int64Loop_spec _ [] (by simp)]
    simp only [List.length_nil, Nat.sub_zero, List.nil_append]
  refine ⟨?_, ?_, ?_, ?_⟩
  · intro hc
    exact parseJSONInt64_of_loop_none r (by rw [hloop, if_pos hc])
  · intro hc hne hle
    rw [parseJSONInt64_of_loop_some r _ (by rw [hloop, if_neg hc])]
    have hgp : goParseInt ((r.dropWhile isSpace).takeWhile isDigit) =
        .ok (digitsVal ((r.dropWhile isSpace).takeWhile isDigit)) := by
      unfold goParseInt
      rw [if_neg (by simp [List.isEmpty_iff, hne]), if_neg (by omega)]
    rw [hgp]
  · intro hc hnil
    rw [parseJSONInt64_of_loop_some r _ (by rw [hloop, if_neg hc])]
    have hgp : goParseInt ((r.dropWhile isSpace).takeWhile isDigit) =
        .error "invalid syntax" := by
      unfold goParseInt
      rw [if_pos (by simp [List.isEmpty_iff, hnil])]
    rw [hgp]
  · intro hc hgt
    rw [parseJSONInt64_of_loop_some r _ (by rw [hloop, if_neg hc])]
    have hne : ¬ ((r.dropWhile isSpace).takeWhile isDigit).isEmpty = true := by
      intro hh
      rw [List.isEmpty_iff] at hh
      rw [hh] at hgt
      simp [digitsVal, maxInt64] at hgt
    have hgp : goParseInt ((r.dropWhile isSpace).takeWhile isDigit) =
        .error "value out of range" := by
      unfold goParseInt
      rw [if_neg hne, if_pos hgt]
    rw [hgp]

/-- Claim C7, counterexample to the claim as frozen: the 20-digit run
"00000000000000000001" ends the buffer and parses successfully to 1
(the claim says every run of length 20 or more is rejected), while the
19-digit run "9999999999999999999" exceeds the int64 range and errors
(the claim says every run of length at most 19 parses to its value). -/
theorem c7_counterexample :
    parseJSONInt64 (bytesOfAscii "00000000000000000001") = .ok 1 []
    ∧ parseJSONInt64 (bytesOfAscii "9999999999999999999") = .err "value out of range" :=
  ⟨rfl, rfl⟩

/-- Witness for c7_int64_characterization at input "123x". -/
theorem c7_witness :
    parseJSONInt64 (bytesOfAscii "123x") = .ok 123 (bytesOfAscii "x") := by
  have h := c7_int64_characterization (bytesOfAscii "123x")
    ((bytesOfAscii "123x").dropWhile isSpace)
    (((bytesOfAscii "123x").dropWhile isSpace).takeWhile isDigit) rfl rfl
  exact h.2.1 (by decide) (by decide) (by decide)

/-- The four sequential optional overwrites of applyUserFields act
independently, one getter per field. -/
theorem applyUserFields_eq (u : userRecord) (m : JObj) :
    applyUserFields u m =
      { u with
        realName := (getString m kRealName).getD u.realName,
        uid := (getInt64 m kUid).getD u.uid,
        gid := (getInt64 m kGid).getD u.gid,
        homeDirectory := (getString m kHomeDirectory).getD u.homeDirectory } := by
  unfold applyUserFields
  cases getString m kRealName <;> cases getInt64 m kUid <;>
    cases getInt64 m kGid <;> cases getString m kHomeDirectory <;> rfl

/-- The perMachine overwrite loop of groupRecord.unmarshalParameters:
the last matching entry that defines a gid wins. -/
theorem group_foldl_gid (l : List JObj) : ∀ g : groupRecord,
    l.foldl
      (fun g m =>
        match getInt64 m kGid with
        | some gid => { g with gid := gid }
        | none => g) g
      = { g with gid := (lastDefinedInt kGid l).getD g.gid } := by
  induction l with
  | nil => intro g; rfl
  | cons m ms ih =>
    intro g
    rw [List.foldl_cons, ih]
    cases hms : lastDefinedInt kGid ms with
    | some v => cases hgm : getInt64 m kGid <;> simp [lastDefinedInt, hms, hgm]
    | none => cases hgm : getInt64 m kGid <;> simp [lastDefinedInt, hms, hgm]

/-- The perMachine overwrite loop of userRecord.unmarshalParameters,
fieldwise: each field is overwritten by the last matching entry that
defines it, independently of the other fields. -/
theorem user_foldl_fields (l : List JObj) : ∀ u : userRecord,
    l.foldl applyUserFields u =
      { u with
        realName := (lastDefinedStr kRealName l).getD u.realName,
        uid := (lastDefinedInt kUid l).getD u.uid,
        gid := (lastDefinedInt kGid l).getD u.gid,
        homeDirectory := (lastDefinedStr kHomeDirectory l).getD u.homeDirectory } := by
  induction l with
  | nil => intro u; rfl
  | cons m ms ih =>
    intro u
    rw [List.foldl_cons, ih, applyUserFields_eq]
    cases hr : lastDefinedStr kRealName ms <;>
      cases hu : lastDefinedInt kUid ms <;>
      cases hg : lastDefinedInt kGid ms <;>
      cases hh : lastDefinedStr kHomeDirectory ms <;>
      simp [lastDefinedStr, lastDefinedInt, hr, hu, hg, hh]

/-- Claim C5: for every overridable field, resolution starts from the
base record value (or the zero default), every matching perMachine
entry in array order overwrites it when that entry defines it (later
matches win), and a binding entry keyed by the machine id overwrites it
last; each field follows its own chain (resolveInt / resolveStr)
independently, so a whole alternate record is never swapped in. -/
theorem c5_field_resolution_precedence (pm : perMachineRecord) (p rec : JObj)
    (gname uname : GoBytes) (hrec : getObject p kRecord = some rec) :
    (getString rec kGroupName = some gname →
      groupRecord.unmarshalParameters { pm := pm } [p]
        = .ok { pm := pm, groupName := gname, gid := resolveInt pm rec kGid 0 })
    ∧ (getString rec kUserName = some uname →
      userRecord.unmarshalParameters { pm := pm } [p]
        = .ok { pm := pm, userName := uname,
                realName := resolveStr pm rec kRealName [],
                uid := resolveInt pm rec kUid 0,
                gid := resolveInt pm rec kGid 0,
                homeDirectory := resolveStr pm rec kHomeDirectory [] }) := by
  constructor
  · intro hg
    simp only [groupRecord.unmarshalParameters, hrec, hg, group_foldl_gid]
    unfold resolveInt bindingInt
    cases hbind : machineBoundRecord pm.machineId rec with
    | none =>
      cases hlast : lastDefinedInt kGid (perMachineMatches pm rec) <;>
        cases hbase : getInt64 rec kGid <;>
        simp [hbind, hlast, hbase]
    | some b =>
      cases hbb : getInt64 b kGid <;>
        cases hlast : lastDefinedInt kGid (perMachineMatches pm rec) <;>
        cases hbase : getInt64 rec kGid <;>
        simp [hbind, hbb, hlast, hbase]
  · intro hu
    simp only [userRecord.unmarshalParameters, hrec, hu, user_foldl_fields,
      applyUserFields_eq]
    unfold resolveInt resolveStr bindingInt bindingStr
    cases hbind : machineBoundRecord pm.machineId rec with
    | none =>
      cases hR : lastDefinedStr kRealName (perMachineMatches pm rec) <;>
        cases hU : lastDefinedInt kUid (perMachineMatches pm rec) <;>
        cases hG : lastDefinedInt kGid (perMachineMatches pm rec) <;>
        cases hH : lastDefinedStr kHomeDirectory (perMachineMatches pm rec) <;>
        simp [hbind, hR, hU, hG, hH]
    | some b =>
      cases hR : lastDefinedStr kRealName (perMachineMatches pm rec) <;>
        cases hU : lastDefinedInt kUid (perMachineMatches pm rec) <;>
        cases hG : lastDefinedInt kGid (perMachineMatches pm rec) <;>
        cases hH : lastDefinedStr kHomeDirectory (perMachineMatches pm rec) <;>
        cases hbR : getString b kRealName <;>
        cases hbU : getInt64 b kUid <;>
        cases hbG : getInt64 b kGid <;>
        cases hbH : getString b kHomeDirectory <;>
        simp [hbind, hR, hU, hG, hH, hbR, hbU, hbG, hbH]

/-- Witness for c5_field_resolution_precedence: on c5Rec the binding
gid (3) wins over the matching perMachine gid (2), which wins over the
base gid (1); realName comes from the perMachine match, uid from the
base record, homeDirectory stays at its default - independently per
field. -/
theorem c5_witness :
    groupRecord.unmarshalParameters { pm := pmFix } [[(kRecord, GoVal.obj c5Rec)]]
      = .ok { pm := pmFix, groupName := bytesOfAscii "g", gid := 3 }
    ∧ userRecord.unmarshalParameters { pm := pmFix } [[(kRecord, GoVal.obj c5Rec)]]
      = .ok { pm := pmFix, userName := bytesOfAscii "u",
              realName := bytesOfAscii "pm", uid := 10, gid := 3,
              homeDirectory := [] } := by
  have h := c5_field_resolution_precedence pmFix [(kRecord, GoVal.obj c5Rec)]
    c5Rec (bytesOfAscii "g") (bytesOfAscii "u") rfl
  exact ⟨h.1 rfl, h.2 rfl⟩

/-- The reference string-literal reader recovers a spliced name that
contains no quote and no backslash, together with the exact suffix. -/
theorem jsonStringLitRef_go_clean (name : GoBytes)
    (hclean : ∀ b ∈ name, b ≠ 34 ∧ b ≠ 92) :
    ∀ suf acc, jsonStringLitRef.go (name ++ 34 :: suf) acc
      = some (acc.reverse ++ name, suf) := by
  induction name with
  | nil =>
    intro suf acc
    rw [List.nil_append, jsonStringLitRef.go.eq_def]
    simp
  | cons b bs ih =>
    intro suf acc
    have hb := hclean b (by simp)
    rw [List.cons_append, jsonStringLitRef.go.eq_def]
    simp only [hb.1, hb.2, if_false, if_neg]
    rw [ih (fun x hx => hclean x (by simp [hx])) suf (b :: acc)]
    simp

/-- Claim C10: the serializer splices names verbatim with no escaping.
For every call parameters value whose userName contains no double
quote, backslash or NUL byte, the serialized call embeds the name as a
well-formed JSON string member (the reference string-literal reader
recovers exactly the name).  But serialization is not injective: two
different parameter values marshal to identical bytes, and for a
userName containing a double quote the member at the userName position
decodes to a different string than the requested name. -/
theorem c10_marshal_not_codec_invertible :
    (∀ (c : callParameters), cleanName c.userName → c.userName ≠ [] →
      ∃ pre suf, c.marshalJSON = pre ++ 34 :: (c.userName ++ 34 :: suf)
        ∧ jsonStringLitRef (34 :: (c.userName ++ 34 :: suf)) = some (c.userName, suf))
    ∧ (callParameters.marshalJSON
        { userName := bytesOfAscii "x\",\"gid\":5,\"groupName\":\"y" }
        = callParameters.marshalJSON
          { userName := bytesOfAscii "x", gid := some 5, groupName := bytesOfAscii "y" }
      ∧ ({ userName := bytesOfAscii "x\",\"gid\":5,\"groupName\":\"y" } : callParameters)
        ≠ { userName := bytesOfAscii "x", gid := some 5, groupName := bytesOfAscii "y" })
    ∧ (callParameters.marshalJSON { userName := bytesOfAscii "a\"b" }
        = bytesOfAscii "\x7b\"service\":\"io.systemd.Multiplexer\",\"userName\":"
            ++ 34 :: (bytesOfAscii "a\"b" ++ 34 :: [125])
      ∧ jsonStringLitRef (34 :: (bytesOfAscii "a\"b" ++ 34 :: [125]))
        = some (bytesOfAscii "a", bytesOfAscii "b\"\x7d")
      ∧ bytesOfAscii "a" ≠ bytesOfAscii "a\"b") := by
  refine ⟨?_, by decide, by decide⟩
  intro c hclean hne
  refine ⟨bytesOfAscii "\x7b\"service\":\"io.systemd.Multiplexer\""
      ++ (match c.uid with
          | some u => bytesOfAscii ",\"uid\":" ++ formatInt u
          | none => []) ++ bytesOfAscii ",\"userName\":",
    (match c.gid with
     | some g => bytesOfAscii ",\"gid\":" ++ formatInt g
     | none => []) ++
    (if c.groupName = [] then []
     else bytesOfAscii ",\"groupName\":\"" ++ c.groupName ++ [34]) ++ [125],
    ?_, ?_⟩
  · rw [callParameters.marshalJSON, if_neg hne]
    have hq : bytesOfAscii ",\"userName\":\"" = bytesOfAscii ",\"userName\":" ++ [34] := rfl
    simp [hq, List.append_assoc]
  · rw [jsonStringLitRef, if_pos rfl]
    rw [jsonStringLitRef_go_clean c.userName
      (fun b hb => ⟨(hclean b hb).1, (hclean b hb).2.1⟩)]
    simp

/-- Witness for c10_marshal_not_codec_invertible at the clean name
"alice". -/
theorem c10_witness :
    ∃ pre suf,
      callParameters.marshalJSON { userName := bytesOfAscii "alice" }
        = pre ++ 34 :: (bytesOfAscii "alice" ++ 34 :: suf)
      ∧ jsonStringLitRef (34 :: (bytesOfAscii "alice" ++ 34 :: suf))
        = some (bytesOfAscii "alice", suf) :=
  c10_marshal_not_codec_invertible.1 { userName := bytesOfAscii "alice" }
    (by decide) (by decide)

/-- The scan-loop step satisfies the accumulator invariant. -/
theorem strLoopStep_shape (rAll acc : GoBytes) (accLen : Nat) (iE iU : Bool)
    (rem : GoBytes) :
    stepInv acc accLen (strLoopStep rAll acc accLen iE iU rem) := by
  unfold strLoopStep
  cases iU with
  | true =>
    rw [if_pos rfl]
    by_cases h4 : rem.length < 4
    · rw [if_pos h4]
      intro s rest hh
      exact POut.noConfusion hh
    · rw [if_neg h4]
      cases hx : hexParse4 (rem.take 4) with
      | none =>
        simp only [hx]
        intro s rest hh
        exact POut.noConfusion hh
      | some rn =>
        simp only [hx]
        by_cases hs : isSurrogate rn = true
        · simp only [hs, not_true, if_neg, if_false]
          by_cases h6 : (List.take 6 (List.drop 4 rem)).length = 6 ∧
              (List.take 6 (List.drop 4 rem)).head? = some 92 ∧
              (List.drop 1 (List.take 6 (List.drop 4 rem))).head? = some 117
          · rw [if_pos h6]
            cases hx2 : hexParse4 (List.drop 2 (List.take 6 (List.drop 4 rem))) with
            | none =>
              simp only [hx2]
              intro s rest hh
              exact POut.noConfusion hh
            | some rn1 =>
              simp only [hx2]
              by_cases hdec : utf16DecodeRune rn rn1 ≠ 65533
              · rw [if_pos hdec]
                exact ⟨_, rfl, by simp [pushBytes]⟩
              · rw [if_neg hdec]
                exact ⟨[], by simp, by simp⟩
          · rw [if_neg h6]
            exact ⟨_, rfl, by simp [pushBytes]⟩
        · simp only [hs, not_false_iff, if_pos, if_true]
          exact ⟨_, rfl, by simp [pushBytes]⟩
  | false =>
    rw [if_neg (by simp)]
    cases iE with
    | true =>
      rw [if_pos rfl]
      cases rem with
      | nil =>
        intro s rest hh
        exact POut.noConfusion hh
      | cons b rest0 =>
        simp only []
        by_cases h1 : b = 98
        · rw [if_pos h1]; exact ⟨_, rfl, by simp [pushBytes]⟩
        · rw [if_neg h1]
          by_cases h2 : b = 102
          · rw [if_pos h2]; exact ⟨_, rfl, by simp [pushBytes]⟩
          · rw [if_neg h2]
            by_cases h3 : b = 110
            · rw [if_pos h3]; exact ⟨_, rfl, by simp [pushBytes]⟩
            · rw [if_neg h3]
              by_cases h5 : b = 114
              · rw [if_pos h5]; exact ⟨_, rfl, by simp [pushBytes]⟩
              · rw [if_neg h5]
                by_cases h7 : b = 116
                · rw [if_pos h7]; exact ⟨_, rfl, by simp [pushBytes]⟩
                · rw [if_neg h7]
                  by_cases h8 : b = 117
                  · rw [if_pos h8]; exact ⟨[], by simp, by simp⟩
                  · rw [if_neg h8]
                    by_cases h9 : b = 47
                    · rw [if_pos h9]; exact ⟨_, rfl, by simp [pushBytes]⟩
                    · rw [if_neg h9]
                      by_cases h10 : b = 92
                      · rw [if_pos h10]; exact ⟨_, rfl, by simp [pushBytes]⟩
                      · rw [if_neg h10]
                        by_cases h11 : b = 34
                        · rw [if_pos h11]; exact ⟨_, rfl, by simp [pushBytes]⟩
                        · rw [if_neg h11]
                          intro s rest hh
                          exact POut.noConfusion hh
    | false =>
      rw [if_neg (by simp)]
      cases rem with
      | nil =>
        intro s rest hh
        exact POut.noConfusion hh
      | cons b rest0 =>
        simp only []
        by_cases h92 : (utf8DecodeRune (b :: rest0)).1 = 92
        · rw [if_pos h92]
          exact ⟨[], by simp, by simp⟩
        · rw [if_neg h92]
          by_cases h34 : (utf8DecodeRune (b :: rest0)).1 = 34
          · rw [if_pos h34]
            intro s rest hh
            simp only [POut.ok.injEq] at hh
            exact hh.1.symm
          · rw [if_neg h34]
            exact ⟨_, rfl, by simp [pushBytes]⟩

theorem strLoopStep_cont (rAll acc : GoBytes) (accLen : Nat) (iE iU : Bool)
    (rem a : GoBytes) (al : Nat) (e u : Bool) (rm : GoBytes)
    (h : strLoopStep rAll acc accLen iE iU rem = .cont a al e u rm) :
    ∃ w, a = w ++ acc ∧ al = accLen + w.length := by
  have hs := strLoopStep_shape rAll acc accLen iE iU rem
  rw [h] at hs
  exact hs

theorem strLoopStep_ret_ok (rAll acc : GoBytes) (accLen : Nat) (iE iU : Bool)
    (rem s rest : GoBytes)
    (h : strLoopStep rAll acc accLen iE iU rem = .ret (.ok s rest)) :
    s = acc.reverse := by
  have hs := strLoopStep_shape rAll acc accLen iE iU rem
  rw [h] at hs
  exact hs s rest rfl

/-- The uncapped scan loop only extends the accumulator: a successful
result is at least as long as the accumulator at any reachable state. -/
theorem parseJSONStringLoopNoCap_mono :
    ∀ (fuel : Nat) (rAll acc : GoBytes) (accLen : Nat) (iE iU : Bool)
      (rem s rest : GoBytes),
      parseJSONStringLoopNoCap rAll fuel acc accLen iE iU rem = .ok s rest →
      acc.length ≤ s.length := by
  intro fuel
  induction fuel with
  | zero => intro rAll acc accLen iE iU rem s rest h; simp [parseJSONStringLoopNoCap] at h
  | succ fuel ih =>
    intro rAll acc accLen iE iU rem s rest h
    rw [parseJSONStringLoopNoCap] at h
    cases hstep : strLoopStep rAll acc accLen iE iU rem with
    | ret o =>
      rw [hstep] at h
      have h2 : o = .ok s rest := h
      have := strLoopStep_ret_ok rAll acc accLen iE iU rem s rest (by rw [hstep, h2])
      rw [this, List.length_reverse]
    | cont a al e u rm =>
      rw [hstep] at h
      obtain ⟨w, hw, _⟩ := strLoopStep_cont rAll acc accLen iE iU rem a al e u rm hstep
      have := ih rAll a al e u rm s rest h
      rw [hw] at this
      simp only [List.length_append] at this
      omega

/-- The capped scan loop succeeds exactly when the uncapped loop
succeeds with a value of at most 4096 bytes. -/
theorem parseJSONStringLoop_iff :
    ∀ (fuel : Nat) (rAll acc : GoBytes) (accLen : Nat) (iE iU : Bool)
      (rem s rest : GoBytes), accLen = acc.length →
      (parseJSONStringLoop rAll fuel acc accLen iE iU rem = .ok s rest ↔
        parseJSONStringLoopNoCap rAll fuel acc accLen iE iU rem = .ok s rest
          ∧ s.length ≤ 4096) := by
  intro fuel
  induction fuel with
  | zero =>
    intro rAll acc accLen iE iU rem s rest _
    simp [parseJSONStringLoop, parseJSONStringLoopNoCap]
  | succ fuel ih =>
    intro rAll acc accLen iE iU rem s rest hLen
    rw [parseJSONStringLoop, parseJSONStringLoopNoCap]
    by_cases hbig : 4096 < accLen
    · rw [if_pos hbig]
      constructor
      · intro h; exact absurd h (by simp)
      · rintro ⟨hnc, hle⟩
        have := parseJSONStringLoopNoCap_mono (fuel + 1) rAll acc accLen iE iU rem s rest
          (by rw [parseJSONStringLoopNoCap]; exact hnc)
        omega
    · rw [if_neg hbig]
      cases hstep : strLoopStep rAll acc accLen iE iU rem with
      | ret o =>
        show (o = .ok s rest) ↔ (o = .ok s rest ∧ s.length ≤ 4096)
        constructor
        · intro h
          refine ⟨h, ?_⟩
          have := strLoopStep_ret_ok rAll acc accLen iE iU rem s rest (by rw [hstep, h])
          rw [this, List.length_reverse]
          omega
        · exact fun hh => hh.1
      | cont a al e u rm =>
        obtain ⟨w, hw, hal⟩ := strLoopStep_cont rAll acc accLen iE iU rem a al e u rm hstep
        exact ih rAll a al e u rm s rest
          (by rw [hw, hal, hLen]; simp only [List.length_append]; omega)

/-- Claim C8: a parseJSONString success never exceeds 4096 bytes; the
capped parser succeeds exactly when the uncapped content is at most
4096 bytes (so content beyond 4096 bytes errors); and the "string too
large" error only occurs when the uncapped content of the input
exceeds 4096 bytes.  Length here is the byte length of the decoded Go
string, which is what value.Len() measures. -/
theorem c8_string_length_cap (r : GoBytes) :
    (∀ s rest, parseJSONString r = .ok s rest → s.length ≤ 4096)
    ∧ (∀ s rest, parseJSONString r = .ok s rest ↔
        parseJSONStringNoCap r = .ok s rest ∧ s.length ≤ 4096)
    ∧ (parseJSONString r = .err "string too large" →
        ∀ s rest, parseJSONStringNoCap r = .ok s rest → 4096 < s.length) := by
  have hiff : ∀ s rest, parseJSONString r = .ok s rest ↔
      parseJSONStringNoCap r = .ok s rest ∧ s.length ≤ 4096 := by
    intro s rest
    rw [parseJSONString, parseJSONStringNoCap]
    cases hdw : r.dropWhile isSpace with
    | nil => simp
    | cons b0 tl =>
      cases tl with
      | nil => simp
      | cons b1 rest2 =>
        simp only []
        by_cases hqq : b0 = 34 ∧ b1 = 34
        · rw [if_pos hqq, if_pos hqq]
          constructor
          · intro h
            refine ⟨h, ?_⟩
            simp only [POut.ok.injEq] at h
            rw [← h.1]
            simp
          · rintro ⟨hnc, _⟩; exact hnc
        · rw [if_neg hqq, if_neg hqq]
          by_cases hq : b0 ≠ 34
          · rw [if_pos hq, if_pos hq]
            simp
          · rw [if_neg hq, if_neg hq]
            exact parseJSONStringLoop_iff ((b1 :: rest2).length + 1) (b1 :: rest2)
              [] 0 false false (b1 :: rest2) s rest rfl
  refine ⟨?_, hiff, ?_⟩
  · intro s rest h
    exact ((hiff s rest).mp h).2
  · intro herr s rest hnc
    by_contra hle
    have : parseJSONString r = .ok s rest := (hiff s rest).mpr ⟨hnc, by omega⟩
    rw [herr] at this
    exact absurd this (by simp)

/-- The scan-loop step on a closing quote. -/
theorem strLoopStep_quote (rAll acc : GoBytes) (accLen : Nat) (tail : GoBytes) :
    strLoopStep rAll acc accLen false false (34 :: tail)
      = .ret (.ok acc.reverse (rAll.drop tail.length)) := by
  unfold strLoopStep
  rw [if_neg (by simp), if_neg (by simp)]
  simp only []
  rw [if_neg (by norm_num [utf8DecodeRune]), if_pos (by norm_num [utf8DecodeRune])]
  norm_num [utf8DecodeRune]

/-- The scan-loop step on a plain ASCII byte (not quote, not
backslash). -/
theorem strLoopStep_ascii (rAll acc : GoBytes) (accLen : Nat) (b : Nat)
    (tail : GoBytes) (hb : b < 0x80) (hq : b ≠ 34) (hs : b ≠ 92) :
    strLoopStep rAll acc accLen false false (b :: tail)
      = .cont (b :: acc) (accLen + 1) false false tail := by
  have hdec : utf8DecodeRune (b :: tail) = (b, 1) := by
    unfold utf8DecodeRune
    simp only []
    rw [if_pos hb]
  have henc : utf8EncodeRune b = [b] := by
    rw [utf8EncodeRune, if_neg (by omega), utf8Encode, if_pos hb]
  unfold strLoopStep
  rw [if_neg (by simp), if_neg (by simp)]
  simp only [hdec]
  rw [if_neg hs, if_neg hq]
  simp [henc, pushBytes]

/-- The uncapped loop on a run of k letters then a closing quote. -/
theorem loopNoCap_run (rAll : GoBytes) :
    ∀ (k fuel accLen : Nat) (acc : GoBytes), k + 1 ≤ fuel →
      parseJSONStringLoopNoCap rAll fuel acc accLen false false
          (List.replicate k 97 ++ [34])
        = .ok (acc.reverse ++ List.replicate k 97) rAll := by
  intro k
  induction k with
  | zero =>
    intro fuel accLen acc hf
    cases fuel with
    | zero => omega
    | succ f =>
      rw [parseJSONStringLoopNoCap, List.replicate, List.nil_append,
        strLoopStep_quote]
      simp
  | succ k ih =>
    intro fuel accLen acc hf
    cases fuel with
    | zero => omega
    | succ f =>
      rw [parseJSONStringLoopNoCap, List.replicate_succ, List.cons_append,
        strLoopStep_ascii rAll acc accLen 97 _ (by omega) (by omega) (by omega)]
      show parseJSONStringLoopNoCap rAll f (97 :: acc) (accLen + 1) false false
          (List.replicate k 97 ++ [34])
        = .ok (acc.reverse ++ List.replicate (k + 1) 97) rAll
      rw [ih f (accLen + 1) (97 :: acc) (by omega)]
      simp [List.replicate_succ, List.append_assoc]

/-- The capped loop errs "string too large" on a letter run that pushes
the builder past 4096 bytes. -/
theorem loopCap_run_err (rAll : GoBytes) :
    ∀ (k fuel accLen : Nat) (acc : GoBytes), 4096 < accLen + k → k + 1 ≤ fuel →
      parseJSONStringLoop rAll fuel acc accLen false false
          (List.replicate k 97 ++ [34])
        = .err "string too large" := by
  intro k
  induction k with
  | zero =>
    intro fuel accLen acc hlen hf
    cases fuel with
    | zero => omega
    | succ f =>
      rw [parseJSONStringLoop, if_pos (by omega)]
  | succ k ih =>
    intro fuel accLen acc hlen hf
    cases fuel with
    | zero => omega
    | succ f =>
      by_cases hbig : 4096 < accLen
      · rw [parseJSONStringLoop, if_pos hbig]
      · rw [parseJSONStringLoop, if_neg hbig, List.replicate_succ,
          List.cons_append,
          strLoopStep_ascii rAll acc accLen 97 _ (by omega) (by omega) (by omega)]
        show parseJSONStringLoop rAll f (97 :: acc) (accLen + 1) false false
            (List.replicate k 97 ++ [34])
          = .err "string too large"
        exact ih f (accLen + 1) (97 :: acc) (by omega) (by omega)

/-- The 4099-byte input: a quote, 4097 letters, a closing quote. -/
theorem parseJSONString_longRun :
    parseJSONString (34 :: (List.replicate 4097 97 ++ [34]))
        = .err "string too large"
    ∧ parseJSONStringNoCap (34 :: (List.replicate 4097 97 ++ [34]))
        = .ok (List.replicate 4097 97) (List.replicate 4097 97 ++ [34]) := by
  have hsplit : (List.replicate 4097 97 : GoBytes) ++ [34]
      = 97 :: (List.replicate 4096 97 ++ [34]) := by
    rw [List.replicate_succ, List.cons_append]
  have hlen48 : 4097 + 1 ≤ ((List.replicate 4097 97 : GoBytes) ++ [34]).length + 1 := by
    simp only [List.length_append, List.length_replicate, List.length_cons,
      List.length_nil]
    omega
  have hdws : List.dropWhile isSpace (34 :: (List.replicate 4097 97 ++ [34]))
      = 34 :: (List.replicate 4097 97 ++ [34]) := by
    rw [List.dropWhile_cons, if_neg (by decide)]
  constructor
  · rw [parseJSONString, hdws, hsplit]
    simp only []
    rw [if_neg (by simp), if_neg (by simp)]
    rw [← hsplit, loopCap_run_err _ 4097 _ 0 [] (by omega) hlen48]
  · rw [parseJSONStringNoCap, hdws, hsplit]
    simp only []
    rw [if_neg (by simp), if_neg (by simp)]
    rw [← hsplit, loopNoCap_run _ 4097 _ 0 [] hlen48]
    simp only [List.reverse_nil, List.nil_append]

/-- Witness for c8_string_length_cap: a 4097-byte string content makes
the capped parser error "string too large" while the uncapped parser
succeeds, and the theorem yields that the content exceeds 4096. -/
theorem c8_witness : 4096 < (List.replicate 4097 97 : GoBytes).length :=
  (c8_string_length_cap (34 :: (List.replicate 4097 97 ++ [34]))).2.2
    parseJSONString_longRun.1
    (List.replicate 4097 97) (List.replicate 4097 97 ++ [34])
    parseJSONString_longRun.2

/-- The scan-loop step on a backslash: enter escape state. -/
theorem strLoopStep_backslash (rAll acc : GoBytes) (accLen : Nat) (tail : GoBytes) :
    strLoopStep rAll acc accLen false false (92 :: tail)
      = .cont acc accLen true false tail := by
  have hdec : utf8DecodeRune (92 :: tail) = (92, 1) := by
    unfold utf8DecodeRune
    simp only []
    rw [if_pos (by omega)]
  unfold strLoopStep
  rw [if_neg (by simp), if_neg (by simp)]
  simp only [hdec]
  rw [if_pos trivial]
  rfl

/-- The scan-loop step on the u of a backslash-u escape: enter the
unicode-escape state. -/
theorem strLoopStep_u (rAll acc : GoBytes) (accLen : Nat) (tail : GoBytes) :
    strLoopStep rAll acc accLen true false (117 :: tail)
      = .cont acc accLen false true tail := by
  unfold strLoopStep
  rw [if_neg (by simp), if_pos rfl]
  simp only []
  rw [if_neg (by decide), if_neg (by decide), if_neg (by decide),
    if_neg (by decide), if_neg (by decide), if_pos trivial]

/-- Take of the six lookahead bytes of a backslash-u escape. -/
theorem lookahead_take6 (L t : GoBytes) (hL : L.length = 4) :
    (92 :: 117 :: L ++ t).take 6 = 92 :: 117 :: L := by
  simp [List.take_succ_cons, List.take_left' hL]

/-- Drop of the six lookahead bytes of a backslash-u escape. -/
theorem lookahead_drop6 (L t : GoBytes) (hL : L.length = 4) :
    (92 :: 117 :: L ++ t).drop 6 = t := by
  simp [List.drop_succ_cons, List.drop_left' hL]

/-- The unicode-escape step on a high surrogate followed by a valid
low-surrogate escape: the combined code point is written and both
escapes are consumed. -/
theorem strLoopStep_uesc_pair (rAll acc : GoBytes) (accLen : Nat)
    (H L t : GoBytes) (h l : Nat) (hH : H.length = 4) (hhex : hexParse4 H = some h)
    (hhigh : 0xD800 ≤ h ∧ h < 0xDC00) (hL : L.length = 4)
    (hlhex : hexParse4 L = some l) (hlow : 0xDC00 ≤ l ∧ l < 0xE000) :
    strLoopStep rAll acc accLen false true (H ++ (92 :: 117 :: L ++ t))
      = .cont (pushBytes (utf8Encode (0x10000 + (h - 0xD800) * 0x400 + (l - 0xDC00))) acc)
          (accLen + (utf8Encode (0x10000 + (h - 0xD800) * 0x400 + (l - 0xDC00))).length)
          false false t := by
  unfold strLoopStep
  rw [if_pos rfl,
    if_neg (by rw [List.length_append, hH]; omega),
    List.take_left' hH, hhex]
  simp only [List.drop_left' hH, lookahead_take6 L t hL]
  rw [if_neg (by simp [isSurrogate]; omega),
    if_pos (by exact ⟨by simp [hL], rfl, rfl⟩)]
  rw [show (92 :: 117 :: L).drop 2 = L from rfl, hlhex]
  simp only [utf16DecodeRune,
    if_pos (show 0xD800 ≤ h ∧ h < 0xDC00 ∧ 0xDC00 ≤ l ∧ l < 0xE000 by omega)]
  rw [if_pos (by omega), lookahead_drop6 L t hL]
  rw [show utf8EncodeRune (0x10000 + (h - 0xD800) * 0x400 + (l - 0xDC00))
      = utf8Encode (0x10000 + (h - 0xD800) * 0x400 + (l - 0xDC00)) from by
    rw [utf8EncodeRune, if_neg (by omega)]]

/-- The unicode-escape step on a high surrogate followed by a
syntactically valid backslash-u escape that is not a valid low
surrogate: nothing is written and both escapes are consumed. -/
theorem strLoopStep_uesc_droppedPair (rAll acc : GoBytes) (accLen : Nat)
    (H L t : GoBytes) (h l : Nat) (hH : H.length = 4) (hhex : hexParse4 H = some h)
    (hhigh : 0xD800 ≤ h ∧ h < 0xDC00) (hL : L.length = 4)
    (hlhex : hexParse4 L = some l) (hlow : ¬(0xDC00 ≤ l ∧ l < 0xE000)) :
    strLoopStep rAll acc accLen false true (H ++ (92 :: 117 :: L ++ t))
      = .cont acc accLen false false t := by
  unfold strLoopStep
  rw [if_pos rfl,
    if_neg (by rw [List.length_append, hH]; omega),
    List.take_left' hH, hhex]
  simp only [List.drop_left' hH, lookahead_take6 L t hL]
  rw [if_neg (by simp [isSurrogate]; omega),
    if_pos (by exact ⟨by simp [hL], rfl, rfl⟩)]
  rw [show (92 :: 117 :: L).drop 2 = L from rfl, hlhex]
  simp only [utf16DecodeRune,
    if_neg (show ¬(0xD800 ≤ h ∧ h < 0xDC00 ∧ 0xDC00 ≤ l ∧ l < 0xE000) by omega)]
  rw [if_neg (by omega), lookahead_drop6 L t hL]

/-- The unicode-escape step on a high surrogate whose six-byte
lookahead is not a backslash-u escape: one U+FFFD is written and the
lookahead is rewound (parsing resumes right after the high-surrogate
escape). -/
theorem strLoopStep_uesc_rewind (rAll acc : GoBytes) (accLen : Nat)
    (H rest : GoBytes) (h : Nat) (hH : H.length = 4) (hhex : hexParse4 H = some h)
    (hhigh : 0xD800 ≤ h ∧ h < 0xDC00)
    (hshape : ¬((rest.take 6).length = 6 ∧ (rest.take 6).head? = some 92 ∧
        ((rest.take 6).drop 1).head? = some 117)) :
    strLoopStep rAll acc accLen false true (H ++ rest)
      = .cont (pushBytes (utf8Encode 0xFFFD) acc) (accLen + 3) false false rest := by
  unfold strLoopStep
  rw [if_pos rfl,
    if_neg (by rw [List.length_append, hH]; omega),
    List.take_left' hH, hhex]
  simp only [List.drop_left' hH]
  rw [if_neg (by simp [isSurrogate]; omega), if_neg hshape]
  rw [show utf8EncodeRune 0xFFFD = utf8Encode 0xFFFD from by
    rw [utf8EncodeRune, if_neg (by omega)]]
  rfl

/-- The unicode-escape step on a high surrogate followed by a
backslash-u escape whose four bytes are not hexadecimal: a hard parse
error. -/
theorem strLoopStep_uesc_badHex (rAll acc : GoBytes) (accLen : Nat)
    (H K t : GoBytes) (h : Nat) (hH : H.length = 4) (hhex : hexParse4 H = some h)
    (hhigh : 0xD800 ≤ h ∧ h < 0xDC00) (hK : K.length = 4)
    (hkhex : hexParse4 K = none) :
    strLoopStep rAll acc accLen false true (H ++ (92 :: 117 :: K ++ t))
      = .ret (.err "invalid unicode escape sequence") := by
  unfold strLoopStep
  rw [if_pos rfl,
    if_neg (by rw [List.length_append, hH]; omega),
    List.take_left' hH, hhex]
  simp only [List.drop_left' hH, lookahead_take6 K t hK]
  rw [if_neg (by simp [isSurrogate]; omega),
    if_pos (by exact ⟨by simp [hK], rfl, rfl⟩)]
  rw [show (92 :: 117 :: K).drop 2 = K from rfl, hkhex]

/-- Encoded scalar values occupy at most four bytes. -/
theorem utf8Encode_length_le (c : Nat) : (utf8Encode c).length ≤ 4 := by
  unfold utf8Encode
  repeat' split
  all_goals simp

/-- Two scan-loop iterations take an opening backslash-u into the
unicode-escape state. -/
theorem loop_enter_uesc (rAll T : GoBytes) (fuel : Nat) (hfuel : 2 ≤ fuel) :
    parseJSONStringLoop rAll fuel [] 0 false false (92 :: 117 :: T)
      = parseJSONStringLoop rAll (fuel - 2) [] 0 false true T := by
  obtain ⟨f, rfl⟩ : ∃ f, fuel = f + 1 + 1 := ⟨fuel - 2, by omega⟩
  rw [parseJSONStringLoop, if_neg (by omega), strLoopStep_backslash]
  show parseJSONStringLoop rAll (f + 1) [] 0 true false (117 :: T) = _
  rw [parseJSONStringLoop, if_neg (by omega), strLoopStep_u]
  show parseJSONStringLoop rAll f [] 0 false true T = _
  rw [show f + 1 + 1 - 2 = f from by omega]

/-- parseJSONString on a quote followed by a backslash-u escape enters
the scan loop on the buffer after the quote. -/
theorem parseJSONString_escape_entry (T : GoBytes) :
    parseJSONString (34 :: 92 :: 117 :: T)
      = parseJSONStringLoop (92 :: 117 :: T) ((92 :: 117 :: T).length + 1) [] 0
          false false (92 :: 117 :: T) := by
  rw [parseJSONString]
  rw [show List.dropWhile isSpace (34 :: 92 :: 117 :: T) = 34 :: 92 :: 117 :: T from by
    rw [List.dropWhile_cons, if_neg (by decide)]]
  simp only []
  rw [if_neg (by simp), if_neg (by simp)]

/-- Claim C9, amended.  The claim as frozen states that a high
surrogate not followed by a valid low surrogate escape yields exactly
one U+FFFD with the lookahead rewound.  As amended: (i) a high
surrogate followed by a valid low-surrogate escape decodes to the
combined code point; (ii) a high surrogate followed by a syntactically
valid backslash-u escape that is not a valid low surrogate emits
nothing at all, with both escapes consumed; (iii) only when the
six-byte lookahead is not a backslash-u escape does the parser emit
one U+FFFD and rewind, resuming right after the high-surrogate escape;
(iv) a backslash-u escape with non-hexadecimal digits after a high
surrogate is a hard error.  (The successful remainders below also show
the r[reader.Len():] remainder bug: the returned rest is the whole
buffer after the opening quote.) -/
theorem c9_surrogate_pair_handling (H L : GoBytes) (h l : Nat)
    (hH : H.length = 4) (hhex : hexParse4 H = some h)
    (hhigh : 0xD800 ≤ h ∧ h < 0xDC00)
    (hL : L.length = 4) (hlhex : hexParse4 L = some l) :
    (0xDC00 ≤ l ∧ l < 0xE000 →
      parseJSONString (34 :: 92 :: 117 :: (H ++ (92 :: 117 :: L ++ [34])))
        = .ok (utf8Encode (0x10000 + (h - 0xD800) * 0x400 + (l - 0xDC00)))
            (92 :: 117 :: (H ++ (92 :: 117 :: L ++ [34]))))
    ∧ (¬(0xDC00 ≤ l ∧ l < 0xE000) →
      parseJSONString (34 :: 92 :: 117 :: (H ++ (92 :: 117 :: L ++ [34])))
        = .ok [] (92 :: 117 :: (H ++ (92 :: 117 :: L ++ [34]))))
    ∧ (∀ c : Nat, c < 0x80 → c ≠ 34 → c ≠ 92 →
      parseJSONString (34 :: 92 :: 117 :: (H ++ [c, 34]))
        = .ok (utf8Encode 0xFFFD ++ [c]) (92 :: 117 :: (H ++ [c, 34])))
    ∧ (∀ K t : GoBytes, K.length = 4 → hexParse4 K = none →
      parseJSONString (34 :: 92 :: 117 :: (H ++ (92 :: 117 :: K ++ t)))
        = .err "invalid unicode escape sequence") := by
  refine ⟨?_, ?_, ?_, ?_⟩
  · intro hlow
    rw [parseJSONString_escape_entry,
      loop_enter_uesc _ _ _ (by simp only [List.length_cons]; omega),
      show (92 :: 117 :: (H ++ (92 :: 117 :: L ++ [34]))).length + 1 - 2
          = (H ++ (92 :: 117 :: L ++ [34])).length + 1 from by
        simp only [List.length_cons]; omega]
    rw [parseJSONStringLoop, if_neg (by omega),
      strLoopStep_uesc_pair _ [] 0 H L [34] h l hH hhex hhigh hL hlhex hlow]
    show parseJSONStringLoop _ ((H ++ (92 :: 117 :: L ++ [34])).length)
        (pushBytes (utf8Encode (0x10000 + (h - 0xD800) * 0x400 + (l - 0xDC00))) [])
        (0 + (utf8Encode (0x10000 + (h - 0xD800) * 0x400 + (l - 0xDC00))).length)
        false false [34] = _
    have hlen : (H ++ (92 :: 117 :: L ++ [34])).length = 10 + 1 := by
      simp [hH, hL]
    rw [hlen]
    rw [parseJSONStringLoop,
      if_neg (by
        have := utf8Encode_length_le (0x10000 + (h - 0xD800) * 0x400 + (l - 0xDC00))
        omega),
      show ([34] : GoBytes) = 34 :: [] from rfl, strLoopStep_quote]
    simp [pushBytes]
  · intro hlow
    rw [parseJSONString_escape_entry,
      loop_enter_uesc _ _ _ (by simp only [List.length_cons]; omega),
      show (92 :: 117 :: (H ++ (92 :: 117 :: L ++ [34]))).length + 1 - 2
          = (H ++ (92 :: 117 :: L ++ [34])).length + 1 from by
        simp only [List.length_cons]; omega]
    rw [parseJSONStringLoop, if_neg (by omega),
      strLoopStep_uesc_droppedPair _ [] 0 H L [34] h l hH hhex hhigh hL hlhex hlow]
    show parseJSONStringLoop _ ((H ++ (92 :: 117 :: L ++ [34])).length)
        [] 0 false false [34] = _
    have hlen : (H ++ (92 :: 117 :: L ++ [34])).length = 10 + 1 := by
      simp [hH, hL]
    rw [hlen]
    rw [parseJSONStringLoop, if_neg (by omega),
      show ([34] : GoBytes) = 34 :: [] from rfl, strLoopStep_quote]
    simp [pushBytes]
  · intro c hc hq hs
    rw [parseJSONString_escape_entry,
      loop_enter_uesc _ _ _ (by simp only [List.length_cons]; omega),
      show (92 :: 117 :: (H ++ [c, 34])).length + 1 - 2
          = (H ++ [c, 34]).length + 1 from by
        simp only [List.length_cons]; omega]
    rw [parseJSONStringLoop, if_neg (by omega),
      strLoopStep_uesc_rewind _ [] 0 H [c, 34] h hH hhex hhigh (by simp)]
    show parseJSONStringLoop _ ((H ++ [c, 34]).length)
        (pushBytes (utf8Encode 0xFFFD) []) (0 + 3) false false [c, 34] = _
    have hlen : (H ++ [c, 34]).length = 5 + 1 := by simp [hH]
    rw [hlen]
    rw [parseJSONStringLoop, if_neg (by omega),
      show ([c, 34] : GoBytes) = c :: [34] from rfl,
      strLoopStep_ascii _ _ _ c [34] hc hq hs]
    show parseJSONStringLoop _ 5 (c :: pushBytes (utf8Encode 0xFFFD) [])
        (0 + 3 + 1) false false [34] = _
    rw [show (5 : Nat) = 4 + 1 from rfl]
    rw [parseJSONStringLoop, if_neg (by omega),
      show ([34] : GoBytes) = 34 :: [] from rfl, strLoopStep_quote]
    simp [pushBytes]
  · intro K t hK hkhex
    rw [parseJSONString_escape_entry,
      loop_enter_uesc _ _ _ (by simp only [List.length_cons]; omega),
      show (92 :: 117 :: (H ++ (92 :: 117 :: K ++ t))).length + 1 - 2
          = (H ++ (92 :: 117 :: K ++ t)).length + 1 from by
        simp only [List.length_cons]; omega]
    rw [parseJSONStringLoop, if_neg (by omega),
      strLoopStep_uesc_badHex _ [] 0 H K t h hH hhex hhigh hK hkhex]

/-- Claim C9, counterexample to the claim as frozen: a high surrogate
escape followed by another high surrogate escape decodes to the empty
string with both escapes consumed - no replacement character is
emitted and parsing does not resume after the first escape. -/
theorem c9_counterexample :
    parseJSONString (bytesOfAscii "\"\\uD800\\uD800\"")
      = .ok [] (bytesOfAscii "\\uD800\\uD800\"")
    ∧ ([] : GoBytes) ≠ utf8Encode 0xFFFD :=
  ⟨rfl, by decide⟩

/-- Witness for c9_surrogate_pair_handling at the concrete escapes
backslash-u D800 and backslash-u DC00 (conjunct one). -/
theorem c9_witness :
    parseJSONString (34 :: 92 :: 117 :: (bytesOfAscii "D800" ++
        (92 :: 117 :: bytesOfAscii "DC00" ++ [34])))
      = .ok (utf8Encode (0x10000 + (0xD800 - 0xD800) * 0x400 + (0xDC00 - 0xDC00)))
          (92 :: 117 :: (bytesOfAscii "D800" ++
            (92 :: 117 :: bytesOfAscii "DC00" ++ [34]))) :=
  (c9_surrogate_pair_handling (bytesOfAscii "D800") (bytesOfAscii "DC00")
    0xD800 0xDC00 (by decide) (by decide) (by decide) (by decide) (by decide)).1
    (by decide)

/-- Inserting a membership pair keeps the key list unchanged when the
group name is already present and appends it otherwise. -/
theorem groupUsersInsert_keys (m : List (GoBytes × List GoBytes)) (g u : GoBytes) :
    (groupUsersInsert m g u).map Prod.fst
      = if (m.map Prod.fst).any (· == g) then m.map Prod.fst
        else m.map Prod.fst ++ [g] := by
  unfold groupUsersInsert
  by_cases h : m.any (·.1 == g)
  · rw [if_pos h, if_pos (by simpa [List.any_map, Function.comp] using h)]
    rw [List.map_map]
    refine List.map_congr_left (fun e _ => ?_)
    by_cases he : e.1 = g <;> simp [he, Function.comp]
  · rw [if_neg h, if_neg (by simpa [List.any_map, Function.comp] using h)]
    simp

/-- When every parameters object defines both userName and groupName,
the membership accumulation loop succeeds and its key list is the
first-occurrence fold of the observed group names over the
accumulator's keys. -/
theorem memberships_go_ok (ps : List JObj) :
    ∀ acc, (∀ p ∈ ps, (getString p kUserName).isSome ∧ (getString p kGroupName).isSome) →
    ∃ gu, memberships.unmarshalParameters.go ps acc = .ok ⟨gu⟩
      ∧ gu.map Prod.fst
        = (ps.map (fun p => (getString p kGroupName).getD [])).foldl
            (fun ks g => if ks.any (· == g) then ks else ks ++ [g])
            (acc.map Prod.fst) := by
  induction ps with
  | nil =>
    intro acc _
    exact ⟨acc, rfl, rfl⟩
  | cons p ps ih =>
    intro acc hall
    obtain ⟨hu, hg⟩ := hall p (List.mem_cons_self p ps)
    obtain ⟨un, hun⟩ := Option.isSome_iff_exists.mp hu
    obtain ⟨gn, hgn⟩ := Option.isSome_iff_exists.mp hg
    obtain ⟨gu, hgo, hkeys⟩ :=
      ih (groupUsersInsert acc gn un)
        (fun q hq => hall q (List.mem_cons_of_mem p hq))
    refine ⟨gu, ?_, ?_⟩
    · rw [memberships.unmarshalParameters.go, hun]
      simp only []
      rw [hgn]
      simp only []
      exact hgo
    · rw [hkeys, groupUsersInsert_keys]
      simp only [List.map_cons, hgn, Option.getD_some, List.foldl_cons]

/-- When some parameters object misses userName or groupName, the
membership accumulation loop fails. -/
theorem memberships_go_err (ps : List JObj) :
    ∀ acc, (∃ p ∈ ps, getString p kUserName = none ∨ getString p kGroupName = none) →
    ∃ e, memberships.unmarshalParameters.go ps acc = .error e := by
  induction ps with
  | nil =>
    intro acc h
    obtain ⟨p, hp, _⟩ := h
    exact absurd hp (List.not_mem_nil p)
  | cons p ps ih =>
    intro acc h
    cases hun : getString p kUserName with
    | none =>
      refine ⟨"missing or invalid userName in userdb reply", ?_⟩
      rw [memberships.unmarshalParameters.go, hun]
    | some un =>
      cases hgn : getString p kGroupName with
      | none =>
        refine ⟨"missing or invalid groupName in userdb reply", ?_⟩
        rw [memberships.unmarshalParameters.go, hun]
        simp only []
        rw [hgn]
      | some gn =>
        obtain ⟨q, hq, hbad⟩ := h
        rcases List.mem_cons.mp hq with rfl | hq2
        · rcases hbad with hb | hb
          · rw [hun] at hb; cases hb
          · rw [hgn] at hb; cases hb
        · obtain ⟨e, he⟩ := ih (groupUsersInsert acc gn un) ⟨q, hq2, hbad⟩
          refine ⟨e, ?_⟩
          rw [memberships.unmarshalParameters.go, hun]
          simp only []
          rw [hgn]
          simp only []
          exact he

/-- The per-group loop of lookupGroupIds: when every remaining group
name resolves to a successful group query, the loop appends one decimal
gid per key to the accumulator. -/
theorem lookupGroupIdsLoop_spec (oracle : GoBytes → NetOutcome)
    (G : GoBytes → groupRecord) (gu : List (GoBytes × List GoBytes))
    (hG : ∀ e ∈ gu, queryModel (oracle (groupRequest none e.1)) ({} : groupRecord)
        groupRecord.unmarshalParameters = .res true none (G e.1)) :
    ∀ gids, lookupGroupIdsLoop oracle gu gids
      = .res (some (gids ++ gu.map (fun e => formatInt (G e.1).gid))) true none := by
  induction gu with
  | nil =>
    intro gids
    rw [lookupGroupIdsLoop]
    simp
  | cons e rest ih =>
    intro gids
    obtain ⟨gname, us⟩ := e
    rw [lookupGroupIdsLoop, hG (gname, us) (List.mem_cons_self _ _)]
    simp only []
    rw [if_neg (by simp)]
    rw [ih (fun q hq => hG q (List.mem_cons_of_mem _ hq)) (gids ++ [formatInt (G gname).gid])]
    simp

/-- Claim C6.  A successful lookupGroupIds run returns the decimal gid
of the group named after the user followed by, for each distinct
groupName key of the membership map, the decimal gid obtained by a
separate GetGroupRecord query (so, as a set, exactly the primary gid
plus one gid per distinct observed group name); the membership decoder
succeeds exactly when every streamed parameters object defines both
userName and groupName, its keys being the distinct observed group
names in first-occurrence order, and a stream containing an object
missing either field makes the whole call fail. -/
theorem c6_lookup_group_ids_set (oracle : GoBytes → NetOutcome)
    (username : GoBytes) (ms : memberships) (g : groupRecord)
    (G : GoBytes → groupRecord)
    (h1 : queryModel (oracle (membershipsRequest username)) ({} : memberships)
        memberships.unmarshalParameters = .res true none ms)
    (h2 : queryModel (oracle (groupRequest none username)) ({} : groupRecord)
        groupRecord.unmarshalParameters = .res true none g)
    (h3 : ∀ e ∈ ms.groupUsers, queryModel (oracle (groupRequest none e.1))
        ({} : groupRecord) groupRecord.unmarshalParameters = .res true none (G e.1)) :
    lookupGroupIds oracle username
      = .res (some (formatInt g.gid ::
          (ms.groupUsers.map Prod.fst).map (fun gn => formatInt (G gn).gid))) true none
    ∧ (∀ x, x ∈ formatInt g.gid ::
          (ms.groupUsers.map Prod.fst).map (fun gn => formatInt (G gn).gid)
        ↔ x = formatInt g.gid
          ∨ ∃ gn ∈ ms.groupUsers.map Prod.fst, x = formatInt (G gn).gid)
    ∧ (∀ ps : List JObj,
        (∀ p ∈ ps, (getString p kUserName).isSome ∧ (getString p kGroupName).isSome) →
        ∃ m : memberships, memberships.unmarshalParameters {} ps = .ok m
          ∧ m.groupUsers.map Prod.fst
            = distinctFirst (ps.map (fun p => (getString p kGroupName).getD [])))
    ∧ (∀ (oracle2 : GoBytes → NetOutcome) (chunks : List GoBytes) (ps : List JObj),
        oracle2 (membershipsRequest username) = .responded chunks →
        accumResp chunks ≠ [] →
        queryProcessMsgs (splitOnNul (accumResp chunks).dropLast) [] = .finished ps →
        (∃ p ∈ ps, getString p kUserName = none ∨ getString p kGroupName = none) →
        ∃ msg, lookupGroupIds oracle2 username = .res none true (some msg)) := by
  refine ⟨?_, ?_, ?_, ?_⟩
  · rw [lookupGroupIds, h1]
    simp only []
    rw [if_neg (by simp), h2]
    simp only []
    rw [if_neg (by simp)]
    rw [lookupGroupIdsLoop_spec oracle G ms.groupUsers h3 [formatInt g.gid]]
    simp [List.map_map, Function.comp]
  · intro x
    simp [List.mem_map]
    tauto
  · intro ps hall
    obtain ⟨gu, hgo, hkeys⟩ := memberships_go_ok ps [] hall
    refine ⟨⟨gu⟩, hgo, ?_⟩
    simpa [distinctFirst] using hkeys
  · intro oracle2 chunks ps hchunks hne hproc hbad
    obtain ⟨e, he⟩ := memberships_go_err ps [] hbad
    refine ⟨"error querying systemd-userdb memberships record: " ++ e, ?_⟩
    rw [lookupGroupIds, hchunks]
    simp only [queryModel]
    rw [if_neg hne, hproc]
    simp only []
    have he2 : memberships.unmarshalParameters {} ps = .error e := he
    rw [he2]
    simp only []
    rw [if_pos (by simp)]
    rfl

/-- Witness for c6_lookup_group_ids_set: an oracle that answers every
request with an empty response stream yields the singleton gid list
["0"] from the zero-valued primary group record. -/
theorem c6_witness :
    lookupGroupIds (fun _ => NetOutcome.responded []) []
      = .res (some [formatInt (0 : Int)]) true none := by
  have h := c6_lookup_group_ids_set (fun _ => NetOutcome.responded []) []
      ({} : memberships) ({} : groupRecord) (fun _ => ({} : groupRecord))
      rfl rfl (by intro e he; exact absurd he (List.not_mem_nil e))
  simpa using h.1

end Userdb
